import Mathlib

/-!
# ceq.c : the wrappers `pt`, `rhou`, `batch_pt`, `batch_rhou`

Shallow embedding of `src/ceq.c`.

* A C `double` is a value of an arbitrary type `α`: the wrappers only move doubles around,
  they never compute with them.
* A `double*` is an address (`Int`, counted in doubles) into one flat memory `Mem α`;
  `X0 + i*nsp` is address arithmetic, `p[i]` is the read `mem (p + i)`.
  Nothing prevents two pointer arguments from overlapping, exactly as in C.
* A C `int` (`N`, `nsp`, `nel`, `verbose`, the loop counter, the status) is an `Int`.
  The only integer arithmetic of the file is `i++` (bounded by `N`) and `i*nsp`, whose
  signed overflow is undefined in C; the embedding computes the mathematical product.
  The theorems on where rows and temperatures are stored relative to other arrays assume
  `offsets_in_range`, under which no offset overflows.
* `solve_pt` and `solve_rhou` are declared in `pt.h` / `rhou.h` and defined elsewhere.
  They are parameters of the embedding: arbitrary total functions that receive their C
  arguments and the memory, and return a status, the new memory and what they printed.
  They cannot observe the output stream or the record of calls.
* `printf` appends one string to the output stream `World.out`.
* `World.calls` is a ghost record of the solver invocations, in order.
-/

namespace Ceq

/-- Flat memory of doubles: address (in units of one double) to value. -/
abbrev Mem (α : Type) := Int → α

/-- What one invocation of an external solver yields: the returned `int`, the memory it
leaves, and the lines it wrote to the standard output. -/
structure SolveOut (α : Type) where
  status : Int
  mem : Mem α
  printed : List String

/-- C signature `int solve_pt(double p, double T, double* X0, int nsp, int nel,
double* lewis, double* M, double* a, double* X1, int verbose)`, run on a memory. -/
abbrev SolvePt (α : Type) :=
  α → α → Int → Int → Int → Int → Int → Int → Int → Int → Mem α → SolveOut α

/-- C signature `int solve_rhou(double rho, double u, double* X0, int nsp, int nel,
double* lewis, double* M, double* a, double* X1, double* T, int verbose)`, run on a
memory. -/
abbrev SolveRhou (α : Type) :=
  α → α → Int → Int → Int → Int → Int → Int → Int → Int → Int → Mem α → SolveOut α

/-- Ghost record of one solver invocation with the actual arguments it received. -/
inductive Call (α : Type) where
  | solve_pt (p T : α) (X0 nsp nel lewis M a X1 verbose : Int)
  | solve_rhou (rho u : α) (X0 nsp nel lewis M a X1 T verbose : Int)
  deriving DecidableEq

/-- Program state: memory, standard output, and the ghost record of solver calls. -/
structure World (α : Type) where
  mem : Mem α
  out : List String
  calls : List (Call α)

/-- Library `printf` with an already formatted string: appends to the standard output. -/
def printf {α : Type} (s : String) (w : World α) : World α :=
  { w with out := w.out ++ [s] }

/-- The call expression `solve_pt(p, T, X0, nsp, nel, lewis, M, a, X1, verbose)`: runs the
external solver on the current memory, appends what it printed, records the call. -/
def call_solve_pt {α : Type} (solve_pt : SolvePt α) (p T : α)
    (X0 nsp nel lewis M a X1 verbose : Int) (w : World α) : Int × World α :=
  let r := solve_pt p T X0 nsp nel lewis M a X1 verbose w.mem
  (r.status,
   { mem := r.mem
     out := w.out ++ r.printed
     calls := w.calls ++ [Call.solve_pt p T X0 nsp nel lewis M a X1 verbose] })

/-- The call expression `solve_rhou(rho, u, X0, nsp, nel, lewis, M, a, X1, T, verbose)`. -/
def call_solve_rhou {α : Type} (solve_rhou : SolveRhou α) (rho u : α)
    (X0 nsp nel lewis M a X1 T verbose : Int) (w : World α) : Int × World α :=
  let r := solve_rhou rho u X0 nsp nel lewis M a X1 T verbose w.mem
  (r.status,
   { mem := r.mem
     out := w.out ++ r.printed
     calls := w.calls ++ [Call.solve_rhou rho u X0 nsp nel lewis M a X1 T verbose] })

/-- Function `int pt(...)` of ceq.c (lines 24-42), whose body is
`return solve_pt(p, T, X0, nsp, nel, lewis, M, a, X1, verbose);`. -/
def pt {α : Type} (solve_pt : SolvePt α) (p T : α)
    (X0 nsp nel lewis M a X1 verbose : Int) (w : World α) : Int × World α :=
  call_solve_pt solve_pt p T X0 nsp nel lewis M a X1 verbose w

/-- Function `int rhou(...)` of ceq.c (lines 44-64), whose body is
`return solve_rhou(rho, u, X0, nsp, nel, lewis, M, a, X1, T, verbose);`. -/
def rhou {α : Type} (solve_rhou : SolveRhou α) (rho u : α)
    (X0 nsp nel lewis M a X1 T verbose : Int) (w : World α) : Int × World α :=
  call_solve_rhou solve_rhou rho u X0 nsp nel lewis M a X1 T verbose w

/-- The `for (i=0; i<N; i++)` loop of `batch_pt` (lines 88-100), entered with counter `i`
and `fuel` iterations left to run (`fuel = N - i`, see `batch_pt_loop_unfold`).
One iteration is lines 89-98; running out of iterations is `return 0` of line 100. -/
def batch_pt_loop {α : Type} (solve_pt : SolvePt α)
    (p T X0 nsp nel lewis M a X1 verbose : Int) : Nat → Int → World α → Int × World α
  | 0, _, w => (0, w)
  | fuel + 1, i, w =>
    let Ti := w.mem (T + i)
    let pi := w.mem (p + i)
    let X0i := X0 + i * nsp
    let X1i := X1 + i * nsp
    let result := call_solve_pt solve_pt pi Ti X0i nsp nel lewis M a X1i verbose w
    if result.1 ≠ 0 then
      (result.1, printf ("Error in batch_pt @ position: " ++ toString i) result.2)
    else
      batch_pt_loop solve_pt p T X0 nsp nel lewis M a X1 verbose fuel (i + 1) result.2

/-- Function `int batch_pt(int N, double* p, double* T, double* X0, int nsp, int nel,
double* lewis, double* M, double* a, double* X1, int verbose)` of ceq.c (lines 66-101):
the loop started at `i = 0`, which runs `N` times when `N` is positive and not at all otherwise. -/
def batch_pt {α : Type} (solve_pt : SolvePt α) (N : Int)
    (p T X0 nsp nel lewis M a X1 verbose : Int) (w : World α) : Int × World α :=
  batch_pt_loop solve_pt p T X0 nsp nel lewis M a X1 verbose (N - 0).toNat 0 w

/-- The `for (i=0; i<N; i++)` loop of `batch_rhou` (lines 126-139), entered with counter
`i` and `fuel` iterations left to run. The output temperature pointer is `Ti = T + i`. -/
def batch_rhou_loop {α : Type} (solve_rhou : SolveRhou α)
    (rho u X0 nsp nel lewis M a X1 T verbose : Int) : Nat → Int → World α → Int × World α
  | 0, _, w => (0, w)
  | fuel + 1, i, w =>
    let rhoi := w.mem (rho + i)
    let ui := w.mem (u + i)
    let X0i := X0 + i * nsp
    let X1i := X1 + i * nsp
    let Ti := T + i
    let result := call_solve_rhou solve_rhou rhoi ui X0i nsp nel lewis M a X1i Ti verbose w
    if result.1 ≠ 0 then
      (result.1, printf ("Error in batch_rhou @ position: " ++ toString i) result.2)
    else
      batch_rhou_loop solve_rhou rho u X0 nsp nel lewis M a X1 T verbose fuel (i + 1)
        result.2

/-- Function `int batch_rhou(int N, double* rho, double* u, double* X0, int nsp, int nel,
double* lewis, double* M, double* a, double* X1, double* T, int verbose)` of ceq.c
(lines 103-140). -/
def batch_rhou {α : Type} (solve_rhou : SolveRhou α) (N : Int)
    (rho u X0 nsp nel lewis M a X1 T verbose : Int) (w : World α) : Int × World α :=
  batch_rhou_loop solve_rhou rho u X0 nsp nel lewis M a X1 T verbose (N - 0).toNat 0 w

/-! ## Reference runs: the rows solved one after the other by direct calls -/

/-- The direct call `pt(p[i], T[i], X0 + i*nsp, nsp, nel, lewis, M, a, X1 + i*nsp, verbose)`
on row `i` of the batch arrays. -/
def pt_row {α : Type} (solve_pt : SolvePt α) (p T X0 nsp nel lewis M a X1 verbose : Int)
    (i : Int) (w : World α) : Int × World α :=
  pt solve_pt (w.mem (p + i)) (w.mem (T + i)) (X0 + i * nsp) nsp nel lewis M a
    (X1 + i * nsp) verbose w

/-- The direct call `rhou(rho[i], u[i], X0 + i*nsp, nsp, nel, lewis, M, a, X1 + i*nsp,
T + i, verbose)` on row `i` of the batch arrays. -/
def rhou_row {α : Type} (solve_rhou : SolveRhou α)
    (rho u X0 nsp nel lewis M a X1 T verbose : Int) (i : Int) (w : World α) :
    Int × World α :=
  rhou solve_rhou (w.mem (rho + i)) (w.mem (u + i)) (X0 + i * nsp) nsp nel lewis M a
    (X1 + i * nsp) (T + i) verbose w

/-- State reached from `w` after the rows `0, 1, ..., n-1` have been processed in this
order, each by one call of `body`, whatever the statuses. -/
def run_rows {α : Type} (body : Int → World α → Int × World α) : Nat → World α → World α
  | 0, w => w
  | n + 1, w => (body n (run_rows body n w)).2

/-- Status returned for row `n` when the rows are processed in increasing order. -/
def row_status {α : Type} (body : Int → World α → Int × World α) (n : Nat) (w : World α) :
    Int :=
  (body n (run_rows body n w)).1

/-- Row `k` is the first one whose status is not zero. -/
def first_failure {α : Type} (body : Int → World α → Int × World α) (w : World α)
    (k : Nat) : Prop :=
  row_status body k w ≠ 0 ∧ ∀ i, i < k → row_status body i w = 0

instance first_failure_decidable {α : Type} (body : Int → World α → Int × World α)
    (w : World α) (k : Nat) : Decidable (first_failure body w k) := by
  unfold first_failure
  infer_instance

/-- A counted loop that stops at the first non-zero status, prints `name` followed by the
index, and returns that status: the common shape of the two batch loops. -/
def batch_loop {α : Type} (body : Int → World α → Int × World α) (name : String) :
    Nat → Int → World α → Int × World α
  | 0, _, w => (0, w)
  | fuel + 1, i, w =>
    let r := body i w
    if r.1 ≠ 0 then (r.1, printf (name ++ toString i) r.2)
    else batch_loop body name fuel (i + 1) r.2

/-! ## Contracts of the external solvers and layout of the batch arrays -/

/-- Address `addr` lies in the `nsp` entries that start at `X`. -/
def in_row (X nsp addr : Int) : Prop := X ≤ addr ∧ addr < X + nsp

instance in_row_decidable (X nsp addr : Int) : Decidable (in_row X nsp addr) := by
  unfold in_row
  infer_instance

/-- Contract of `solve_pt` on its output (`X1 : Equilibrium Mole Fraction [nsp]`): the only
memory it changes is the `nsp` entries at `X1`. -/
def WritesOnlyX1 {α : Type} (solve_pt : SolvePt α) : Prop :=
  ∀ (p T : α) (X0 nsp nel lewis M a X1 verbose : Int) (m : Mem α) (addr : Int),
    ¬ in_row X1 nsp addr →
      (solve_pt p T X0 nsp nel lewis M a X1 verbose m).mem addr = m addr

/-- Contract of `solve_rhou` on its outputs (`X1 [nsp]` and `T`): the only memory it
changes is the `nsp` entries at `X1` and the one entry at `T`. -/
def WritesOnlyX1T {α : Type} (solve_rhou : SolveRhou α) : Prop :=
  ∀ (rho u : α) (X0 nsp nel lewis M a X1 T verbose : Int) (m : Mem α) (addr : Int),
    ¬ in_row X1 nsp addr → addr ≠ T →
      (solve_rhou rho u X0 nsp nel lewis M a X1 T verbose m).mem addr = m addr

/-- The output arrays of `batch_rhou` do not overlap: no `T[i]`, `i < N`, lies in a row
`X1[j*nsp .. (j+1)*nsp)`, `j < N`. -/
def T_X1_apart (N nsp X1 T : Int) : Prop :=
  ∀ i j : Int, 0 ≤ i → i < N → 0 ≤ j → j < N → ¬ in_row (X1 + j * nsp) nsp (T + i)

/-- Address `addr` lies in one of the arrays a solver takes as input, with the extents of
the header comments: `X0 [nsp]`, `lewis [nsp*3*9]`, `M [nsp]`, `a [nel,nsp]`. -/
def solver_inputs (X0 nsp nel lewis M a addr : Int) : Prop :=
  in_row X0 nsp addr ∨ in_row lewis (nsp * 3 * 9) addr ∨ in_row M nsp addr ∨
    in_row a (nel * nsp) addr

/-- Contract of `solve_pt` on its inputs: it is a deterministic function of its scalar
arguments and of the contents of its input arrays. On two memories that agree on the
input arrays it returns the same status and, when that status is 0, writes the same `nsp`
values to `X1`. Nothing is said of what a failed solve leaves in `X1`. -/
def ReadsOnlyInputsPt {α : Type} (solve_pt : SolvePt α) : Prop :=
  ∀ (p T : α) (X0 nsp nel lewis M a X1 verbose : Int) (m m' : Mem α),
    (∀ addr, solver_inputs X0 nsp nel lewis M a addr → m addr = m' addr) →
      (solve_pt p T X0 nsp nel lewis M a X1 verbose m).status =
          (solve_pt p T X0 nsp nel lewis M a X1 verbose m').status ∧
        ((solve_pt p T X0 nsp nel lewis M a X1 verbose m).status = 0 →
          ∀ addr, in_row X1 nsp addr →
            (solve_pt p T X0 nsp nel lewis M a X1 verbose m).mem addr =
              (solve_pt p T X0 nsp nel lewis M a X1 verbose m').mem addr)

/-- Contract of `solve_rhou` on its inputs: on two memories that agree on the input arrays
it returns the same status and, when that status is 0, writes the same values to `X1` and
to `*T`. Nothing is said of what a failed solve leaves in `X1` and `*T`. -/
def ReadsOnlyInputsRhou {α : Type} (solve_rhou : SolveRhou α) : Prop :=
  ∀ (rho u : α) (X0 nsp nel lewis M a X1 T verbose : Int) (m m' : Mem α),
    (∀ addr, solver_inputs X0 nsp nel lewis M a addr → m addr = m' addr) →
      (solve_rhou rho u X0 nsp nel lewis M a X1 T verbose m).status =
          (solve_rhou rho u X0 nsp nel lewis M a X1 T verbose m').status ∧
        ((solve_rhou rho u X0 nsp nel lewis M a X1 T verbose m).status = 0 →
          (solve_rhou rho u X0 nsp nel lewis M a X1 T verbose m).mem T =
              (solve_rhou rho u X0 nsp nel lewis M a X1 T verbose m').mem T ∧
            ∀ addr, in_row X1 nsp addr →
              (solve_rhou rho u X0 nsp nel lewis M a X1 T verbose m).mem addr =
                (solve_rhou rho u X0 nsp nel lewis M a X1 T verbose m').mem addr)

/-- Largest value of a 32-bit C `int`. -/
def INT_MAX : Int := 2147483647

/-- The batch has rows of `nsp ≥ 0` entries and `N*nsp` fits a 32-bit `int`: every row
offset `i*nsp`, `0 ≤ i < N`, that the loops compute is then free of signed overflow, and
the product of the embedding is the product the C code computes. -/
def offsets_in_range (N nsp : Int) : Prop := 0 ≤ nsp ∧ N * nsp ≤ INT_MAX

instance offsets_in_range_decidable (N nsp : Int) : Decidable (offsets_in_range N nsp) := by
  unfold offsets_in_range
  infer_instance

/-- Layout of a `batch_pt` call: the output array `X1 [N,nsp]` shares no address with the
input arrays `p [N]`, `T [N]`, `X0 [N,nsp]`, `lewis [nsp*3*9]`, `M [nsp]`, `a [nel,nsp]`. -/
def pt_arrays_apart (N p T X0 nsp nel lewis M a X1 : Int) : Prop :=
  ∀ addr, in_row X1 (N * nsp) addr →
    ¬ in_row p N addr ∧ ¬ in_row T N addr ∧ ¬ in_row X0 (N * nsp) addr ∧
      ¬ in_row lewis (nsp * 3 * 9) addr ∧ ¬ in_row M nsp addr ∧ ¬ in_row a (nel * nsp) addr

/-- Layout of a `batch_rhou` call: the output arrays `X1 [N,nsp]` and `T [N]` share no
address with the input arrays `rho [N]`, `u [N]`, `X0 [N,nsp]`, `lewis [nsp*3*9]`,
`M [nsp]`, `a [nel,nsp]`. -/
def rhou_arrays_apart (N rho u X0 nsp nel lewis M a X1 T : Int) : Prop :=
  ∀ addr, in_row X1 (N * nsp) addr ∨ in_row T N addr →
    ¬ in_row rho N addr ∧ ¬ in_row u N addr ∧ ¬ in_row X0 (N * nsp) addr ∧
      ¬ in_row lewis (nsp * 3 * 9) addr ∧ ¬ in_row M nsp addr ∧ ¬ in_row a (nel * nsp) addr

/-- Property of `solve_pt` that `verbose` only adds tracing: for every input and any two
values of `verbose` the status and the memory left are the same. -/
def VerboseOnlyTracesPt {α : Type} (solve_pt : SolvePt α) : Prop :=
  ∀ (p T : α) (X0 nsp nel lewis M a X1 v1 v2 : Int) (m : Mem α),
    (solve_pt p T X0 nsp nel lewis M a X1 v1 m).status =
        (solve_pt p T X0 nsp nel lewis M a X1 v2 m).status ∧
      (solve_pt p T X0 nsp nel lewis M a X1 v1 m).mem =
        (solve_pt p T X0 nsp nel lewis M a X1 v2 m).mem

/-- Property of `solve_rhou` that `verbose` only adds tracing. -/
def VerboseOnlyTracesRhou {α : Type} (solve_rhou : SolveRhou α) : Prop :=
  ∀ (rho u : α) (X0 nsp nel lewis M a X1 T v1 v2 : Int) (m : Mem α),
    (solve_rhou rho u X0 nsp nel lewis M a X1 T v1 m).status =
        (solve_rhou rho u X0 nsp nel lewis M a X1 T v2 m).status ∧
      (solve_rhou rho u X0 nsp nel lewis M a X1 T v1 m).mem =
        (solve_rhou rho u X0 nsp nel lewis M a X1 T v2 m).mem

/-- The solver call that `batch_pt` makes for row `i` from state `w`. -/
def pt_call {α : Type} (p T X0 nsp nel lewis M a X1 verbose : Int) (i : Int) (w : World α) :
    Call α :=
  Call.solve_pt (w.mem (p + i)) (w.mem (T + i)) (X0 + i * nsp) nsp nel lewis M a
    (X1 + i * nsp) verbose

/-- The solver call that `batch_rhou` makes for row `i` from state `w`. -/
def rhou_call {α : Type} (rho u X0 nsp nel lewis M a X1 T verbose : Int) (i : Int)
    (w : World α) : Call α :=
  Call.solve_rhou (w.mem (rho + i)) (w.mem (u + i)) (X0 + i * nsp) nsp nel lewis M a
    (X1 + i * nsp) (T + i) verbose

/-- The lines `solve_pt` itself prints when called for row `i` from state `w`. -/
def pt_printed {α : Type} (solve_pt : SolvePt α) (p T X0 nsp nel lewis M a X1 verbose : Int)
    (i : Int) (w : World α) : List String :=
  (solve_pt (w.mem (p + i)) (w.mem (T + i)) (X0 + i * nsp) nsp nel lewis M a
    (X1 + i * nsp) verbose w.mem).printed

/-- The lines `solve_rhou` itself prints when called for row `i` from state `w`. -/
def rhou_printed {α : Type} (solve_rhou : SolveRhou α)
    (rho u X0 nsp nel lewis M a X1 T verbose : Int) (i : Int) (w : World α) : List String :=
  (solve_rhou (w.mem (rho + i)) (w.mem (u + i)) (X0 + i * nsp) nsp nel lewis M a
    (X1 + i * nsp) (T + i) verbose w.mem).printed

/-! ## A concrete solver and memory, used to exercise the theorems -/

/-- Toy `solve_pt` over integer "doubles": reads the `nsp` entries of `X0`, writes the
`nsp` entries of `X1`, fails with status 3 on a negative temperature, and prints one line
when `verbose` is set. -/
def demo_solve_pt : SolvePt Int :=
  fun p T X0 nsp _ _ _ _ X1 verbose m =>
    { status := if T < 0 then 3 else 0
      mem := fun addr => if X1 ≤ addr ∧ addr < X1 + nsp then m (X0 + (addr - X1)) * T + p
        else m addr
      printed := if verbose = 0 then [] else ["solve_pt called"] }

/-- Toy `solve_pt` that gives up early: on a negative temperature it returns status 3 and
leaves the memory, `X1` included, as it found it; otherwise it is `demo_solve_pt`. -/
def early_solve_pt : SolvePt Int :=
  fun p T X0 nsp nel lewis M a X1 verbose m =>
    if T < 0 then { status := 3, mem := m, printed := [] }
    else demo_solve_pt p T X0 nsp nel lewis M a X1 verbose m

/-- Toy `solve_rhou`: as `demo_solve_pt`, fails with status 4 on a negative energy, and
stores the temperature `u` at `*T`. -/
def demo_solve_rhou : SolveRhou Int :=
  fun rho u X0 nsp _ _ _ _ X1 T verbose m =>
    { status := if u < 0 then 4 else 0
      mem := fun addr => if X1 ≤ addr ∧ addr < X1 + nsp then m (X0 + (addr - X1)) * u + rho
        else if addr = T then u else m addr
      printed := if verbose = 0 then [] else ["solve_rhou called"] }

/-- Memory holding `address` at every address, except the second and third entry of the
array at 10, which hold -5 and 400. -/
def demo_mem : Mem Int :=
  fun addr => if addr = 11 then -5 else if addr = 12 then 400 else addr

/-- Initial state: `demo_mem`, nothing printed, no call made. -/
def demo_world : World Int :=
  { mem := demo_mem, out := [], calls := [] }

/-! ## Theorems -/

section Loop

variable {α : Type}

theorem printf_mem (s : String) (w : World α) : (printf s w).mem = w.mem := rfl

theorem printf_calls (s : String) (w : World α) : (printf s w).calls = w.calls := rfl

theorem printf_out (s : String) (w : World α) : (printf s w).out = w.out ++ [s] := rfl

/-- The embedding of the `batch_pt` loop is the C `for` loop: with `N - i` iterations left
it tests `i < N`, runs lines 89-98 and continues with `i + 1`, or returns 0. -/
theorem batch_pt_loop_unfold (solve_pt : SolvePt α)
    (N p T X0 nsp nel lewis M a X1 verbose i : Int) (w : World α) :
    batch_pt_loop solve_pt p T X0 nsp nel lewis M a X1 verbose (N - i).toNat i w =
      if i < N then
        (if (call_solve_pt solve_pt (w.mem (p + i)) (w.mem (T + i)) (X0 + i * nsp) nsp nel
              lewis M a (X1 + i * nsp) verbose w).1 ≠ 0 then
          ((call_solve_pt solve_pt (w.mem (p + i)) (w.mem (T + i)) (X0 + i * nsp) nsp nel
              lewis M a (X1 + i * nsp) verbose w).1,
           printf ("Error in batch_pt @ position: " ++ toString i)
            (call_solve_pt solve_pt (w.mem (p + i)) (w.mem (T + i)) (X0 + i * nsp) nsp nel
              lewis M a (X1 + i * nsp) verbose w).2)
        else
          batch_pt_loop solve_pt p T X0 nsp nel lewis M a X1 verbose (N - (i + 1)).toNat
            (i + 1)
            (call_solve_pt solve_pt (w.mem (p + i)) (w.mem (T + i)) (X0 + i * nsp) nsp nel
              lewis M a (X1 + i * nsp) verbose w).2)
      else (0, w) := by
  by_cases h : i < N
  · have hfuel : (N - i).toNat = (N - (i + 1)).toNat + 1 := by omega
    rw [hfuel, if_pos h]
    rfl
  · have hfuel : (N - i).toNat = 0 := by omega
    rw [hfuel, if_neg h]
    rfl

/-- The embedding of the `batch_rhou` loop is the C `for` loop. -/
theorem batch_rhou_loop_unfold (solve_rhou : SolveRhou α)
    (N rho u X0 nsp nel lewis M a X1 T verbose i : Int) (w : World α) :
    batch_rhou_loop solve_rhou rho u X0 nsp nel lewis M a X1 T verbose (N - i).toNat i w =
      if i < N then
        (if (call_solve_rhou solve_rhou (w.mem (rho + i)) (w.mem (u + i)) (X0 + i * nsp) nsp
              nel lewis M a (X1 + i * nsp) (T + i) verbose w).1 ≠ 0 then
          ((call_solve_rhou solve_rhou (w.mem (rho + i)) (w.mem (u + i)) (X0 + i * nsp) nsp
              nel lewis M a (X1 + i * nsp) (T + i) verbose w).1,
           printf ("Error in batch_rhou @ position: " ++ toString i)
            (call_solve_rhou solve_rhou (w.mem (rho + i)) (w.mem (u + i)) (X0 + i * nsp) nsp
              nel lewis M a (X1 + i * nsp) (T + i) verbose w).2)
        else
          batch_rhou_loop solve_rhou rho u X0 nsp nel lewis M a X1 T verbose
            (N - (i + 1)).toNat (i + 1)
            (call_solve_rhou solve_rhou (w.mem (rho + i)) (w.mem (u + i)) (X0 + i * nsp) nsp
              nel lewis M a (X1 + i * nsp) (T + i) verbose w).2)
      else (0, w) := by
  by_cases h : i < N
  · have hfuel : (N - i).toNat = (N - (i + 1)).toNat + 1 := by omega
    rw [hfuel, if_pos h]
    rfl
  · have hfuel : (N - i).toNat = 0 := by omega
    rw [hfuel, if_neg h]
    rfl

theorem batch_pt_loop_eq (solve_pt : SolvePt α) (p T X0 nsp nel lewis M a X1 verbose : Int)
    (fuel : Nat) (i : Int) (w : World α) :
    batch_pt_loop solve_pt p T X0 nsp nel lewis M a X1 verbose fuel i w =
      batch_loop (pt_row solve_pt p T X0 nsp nel lewis M a X1 verbose)
        "Error in batch_pt @ position: " fuel i w := by
  induction fuel generalizing i w with
  | zero => rfl
  | succ n ih =>
    simp only [batch_pt_loop, batch_loop, pt_row, pt, ih]

theorem batch_rhou_loop_eq (solve_rhou : SolveRhou α)
    (rho u X0 nsp nel lewis M a X1 T verbose : Int) (fuel : Nat) (i : Int) (w : World α) :
    batch_rhou_loop solve_rhou rho u X0 nsp nel lewis M a X1 T verbose fuel i w =
      batch_loop (rhou_row solve_rhou rho u X0 nsp nel lewis M a X1 T verbose)
        "Error in batch_rhou @ position: " fuel i w := by
  induction fuel generalizing i w with
  | zero => rfl
  | succ n ih =>
    simp only [batch_rhou_loop, batch_loop, rhou_row, rhou, ih]

theorem batch_pt_eq (solve_pt : SolvePt α) (N p T X0 nsp nel lewis M a X1 verbose : Int)
    (w : World α) :
    batch_pt solve_pt N p T X0 nsp nel lewis M a X1 verbose w =
      batch_loop (pt_row solve_pt p T X0 nsp nel lewis M a X1 verbose)
        "Error in batch_pt @ position: " N.toNat 0 w := by
  unfold batch_pt
  rw [batch_pt_loop_eq, Int.sub_zero]

theorem batch_rhou_eq (solve_rhou : SolveRhou α)
    (N rho u X0 nsp nel lewis M a X1 T verbose : Int) (w : World α) :
    batch_rhou solve_rhou N rho u X0 nsp nel lewis M a X1 T verbose w =
      batch_loop (rhou_row solve_rhou rho u X0 nsp nel lewis M a X1 T verbose)
        "Error in batch_rhou @ position: " N.toNat 0 w := by
  unfold batch_rhou
  rw [batch_rhou_loop_eq, Int.sub_zero]

/-- No failure among the next `fuel` rows: the loop returns 0 in the state reached after
all of them. -/
theorem batch_loop_ok (body : Int → World α → Int × World α) (name : String)
    (w : World α) (fuel i : Nat)
    (h : ∀ j, i ≤ j → j < i + fuel → row_status body j w = 0) :
    batch_loop body name fuel i (run_rows body i w) = (0, run_rows body (i + fuel) w) := by
  induction fuel generalizing i with
  | zero => rfl
  | succ n ih =>
    have h0 : (body i (run_rows body i w)).1 = 0 := h i (le_refl i) (by omega)
    have hstep := ih (i + 1) (fun j h1 h2 => h j (by omega) (by omega))
    have hidx : i + 1 + n = i + (n + 1) := by omega
    simp only [batch_loop, h0, ne_eq, not_true_eq_false, if_false]
    rw [hidx] at hstep
    exact hstep

/-- First failure at row `k` among the next `fuel` rows: the loop returns the status of
row `k` in the state reached after rows up to `k`, plus the one message. -/
theorem batch_loop_fail (body : Int → World α → Int × World α) (name : String)
    (w : World α) (fuel i k : Nat) (hik : i ≤ k) (hk : k < i + fuel)
    (hfail : row_status body k w ≠ 0)
    (hok : ∀ j, i ≤ j → j < k → row_status body j w = 0) :
    batch_loop body name fuel i (run_rows body i w) =
      (row_status body k w, printf (name ++ toString (k : Int)) (run_rows body (k + 1) w)) := by
  induction fuel generalizing i with
  | zero => omega
  | succ n ih =>
    by_cases hki : k = i
    · subst hki
      have hne : (body k (run_rows body k w)).1 ≠ 0 := hfail
      simp only [batch_loop, hne, ne_eq, not_false_eq_true, if_true]
      rfl
    · have h0 : (body i (run_rows body i w)).1 = 0 := hok i (le_refl i) (by omega)
      have hstep := ih (i + 1) (by omega) (by omega) (fun j h1 h2 => hok j (by omega) h2)
      simp only [batch_loop, h0, ne_eq, not_true_eq_false, if_false]
      exact hstep

/-- The loop started at row 0 with no failure among the `n` rows. -/
theorem batch_loop_ok_zero (body : Int → World α → Int × World α) (name : String)
    (w : World α) (n : Nat) (h : ∀ j, j < n → row_status body j w = 0) :
    batch_loop body name n 0 w = (0, run_rows body n w) := by
  have h0 := batch_loop_ok body name w n 0 (fun j _ hj => h j (by omega))
  rw [Nat.zero_add] at h0
  exact h0

/-- The loop started at row 0 with first failure at row `k < n`. -/
theorem batch_loop_fail_zero (body : Int → World α → Int × World α) (name : String)
    (w : World α) (n k : Nat) (hk : k < n) (hf : first_failure body w k) :
    batch_loop body name n 0 w =
      (row_status body k w, printf (name ++ toString (k : Int)) (run_rows body (k + 1) w)) :=
  batch_loop_fail body name w n 0 k (Nat.zero_le k) (by omega) hf.1 (fun j _ hj => hf.2 j hj)

/-- Either the first `n` rows all return 0, or one of them is the first failure. -/
theorem first_failure_cases (body : Int → World α → Int × World α) (w : World α) (n : Nat) :
    (∀ i, i < n → row_status body i w = 0) ∨ ∃ k, k < n ∧ first_failure body w k := by
  induction n with
  | zero => exact Or.inl (fun i hi => absurd hi (Nat.not_lt_zero i))
  | succ n ih =>
    rcases ih with hall | ⟨k, hk, hf⟩
    · by_cases hn : row_status body n w = 0
      · refine Or.inl (fun i hi => ?_)
        rcases Nat.lt_succ_iff_lt_or_eq.mp hi with h | h
        · exact hall i h
        · rw [h]; exact hn
      · exact Or.inr ⟨n, Nat.lt_succ_self n, hn, hall⟩
    · exact Or.inr ⟨k, Nat.lt_succ_of_lt hk, hf⟩

end Loop

section Runs

variable {α : Type}

theorem pt_row_calls (solve_pt : SolvePt α) (p T X0 nsp nel lewis M a X1 verbose i : Int)
    (w : World α) :
    (pt_row solve_pt p T X0 nsp nel lewis M a X1 verbose i w).2.calls =
      w.calls ++ [pt_call p T X0 nsp nel lewis M a X1 verbose i w] := rfl

theorem rhou_row_calls (solve_rhou : SolveRhou α)
    (rho u X0 nsp nel lewis M a X1 T verbose i : Int) (w : World α) :
    (rhou_row solve_rhou rho u X0 nsp nel lewis M a X1 T verbose i w).2.calls =
      w.calls ++ [rhou_call rho u X0 nsp nel lewis M a X1 T verbose i w] := rfl

theorem pt_row_out (solve_pt : SolvePt α) (p T X0 nsp nel lewis M a X1 verbose i : Int)
    (w : World α) :
    (pt_row solve_pt p T X0 nsp nel lewis M a X1 verbose i w).2.out =
      w.out ++ pt_printed solve_pt p T X0 nsp nel lewis M a X1 verbose i w := rfl

theorem rhou_row_out (solve_rhou : SolveRhou α)
    (rho u X0 nsp nel lewis M a X1 T verbose i : Int) (w : World α) :
    (rhou_row solve_rhou rho u X0 nsp nel lewis M a X1 T verbose i w).2.out =
      w.out ++ rhou_printed solve_rhou rho u X0 nsp nel lewis M a X1 T verbose i w := rfl

theorem pt_row_mem (solve_pt : SolvePt α) (p T X0 nsp nel lewis M a X1 verbose i : Int)
    (w : World α) :
    (pt_row solve_pt p T X0 nsp nel lewis M a X1 verbose i w).2.mem =
      (solve_pt (w.mem (p + i)) (w.mem (T + i)) (X0 + i * nsp) nsp nel lewis M a
        (X1 + i * nsp) verbose w.mem).mem := rfl

theorem rhou_row_mem (solve_rhou : SolveRhou α)
    (rho u X0 nsp nel lewis M a X1 T verbose i : Int) (w : World α) :
    (rhou_row solve_rhou rho u X0 nsp nel lewis M a X1 T verbose i w).2.mem =
      (solve_rhou (w.mem (rho + i)) (w.mem (u + i)) (X0 + i * nsp) nsp nel lewis M a
        (X1 + i * nsp) (T + i) verbose w.mem).mem := rfl

/-- A run records one call per row, in increasing row order. -/
theorem run_rows_calls (body : Int → World α → Int × World α)
    (call : Int → World α → Call α)
    (h : ∀ i w, (body i w).2.calls = w.calls ++ [call i w]) (w : World α) (n : Nat) :
    (run_rows body n w).calls =
      w.calls ++ (List.range n).map (fun i : Nat => call i (run_rows body i w)) := by
  induction n with
  | zero => simp [run_rows]
  | succ n ih =>
    simp only [run_rows, h, ih, List.range_succ, List.map_append, List.map_cons,
      List.map_nil, List.append_assoc]

/-- A run prints what the solver calls print, and nothing else. -/
theorem run_rows_out (body : Int → World α → Int × World α)
    (lines : Int → World α → List String)
    (h : ∀ i w, (body i w).2.out = w.out ++ lines i w) (w : World α) (n : Nat) :
    (run_rows body n w).out =
      w.out ++ ((List.range n).map (fun i : Nat => lines i (run_rows body i w))).flatten := by
  induction n with
  | zero => simp [run_rows]
  | succ n ih =>
    simp only [run_rows, h, ih, List.range_succ, List.map_append, List.map_cons,
      List.map_nil, List.flatten_append, List.flatten_cons, List.flatten_nil,
      List.append_nil, List.append_assoc]

/-- A run leaves untouched every address outside the write sets of its rows. -/
theorem run_rows_frame (body : Int → World α → Int × World α) (writes : Int → Int → Prop)
    (h : ∀ i w addr, ¬ writes i addr → (body i w).2.mem addr = w.mem addr)
    (w : World α) (addr : Int) (n : Nat) (hout : ∀ i : Nat, i < n → ¬ writes i addr) :
    (run_rows body n w).mem addr = w.mem addr := by
  induction n with
  | zero => rfl
  | succ n ih =>
    simp only [run_rows]
    rw [h n _ addr (hout n (Nat.lt_succ_self n))]
    exact ih (fun i hi => hout i (Nat.lt_succ_of_lt hi))

/-- Two different rows of stride `nsp` and length `nsp` share no address. -/
theorem rows_disjoint (X nsp i j addr : Int) (hij : i < j)
    (hj : in_row (X + j * nsp) nsp addr) : ¬ in_row (X + i * nsp) nsp addr := by
  unfold in_row at *
  intro hi
  have hpos : 0 < nsp := by omega
  have hmul : (i + 1) * nsp ≤ j * nsp := Int.mul_le_mul_of_nonneg_right (by omega) (by omega)
  have hexp : (i + 1) * nsp = i * nsp + nsp := by ring
  omega

theorem pt_row_frame (solve_pt : SolvePt α) (hW : WritesOnlyX1 solve_pt)
    (p T X0 nsp nel lewis M a X1 verbose i : Int) (w : World α) (addr : Int)
    (h : ¬ in_row (X1 + i * nsp) nsp addr) :
    (pt_row solve_pt p T X0 nsp nel lewis M a X1 verbose i w).2.mem addr = w.mem addr := by
  rw [pt_row_mem]
  exact hW _ _ _ _ _ _ _ _ _ _ _ _ h

theorem rhou_row_frame (solve_rhou : SolveRhou α) (hW : WritesOnlyX1T solve_rhou)
    (rho u X0 nsp nel lewis M a X1 T verbose i : Int) (w : World α) (addr : Int)
    (h : ¬ (in_row (X1 + i * nsp) nsp addr ∨ addr = T + i)) :
    (rhou_row solve_rhou rho u X0 nsp nel lewis M a X1 T verbose i w).2.mem addr =
      w.mem addr := by
  rw [rhou_row_mem]
  exact hW _ _ _ _ _ _ _ _ _ _ _ _ _ (fun hr => h (Or.inl hr)) (fun ht => h (Or.inr ht))

theorem demo_solve_pt_writes : WritesOnlyX1 demo_solve_pt := by
  intro p T X0 nsp nel lewis M a X1 verbose m addr h
  unfold in_row at h
  simp only [demo_solve_pt, if_neg h]

theorem demo_T_X1_apart : T_X1_apart 3 2 40 50 := by
  intro i j hi hiN hj hjN h
  unfold in_row at h
  omega

theorem demo_solve_rhou_writes : WritesOnlyX1T demo_solve_rhou := by
  intro rho u X0 nsp nel lewis M a X1 T verbose m addr h hT
  unfold in_row at h
  simp only [demo_solve_rhou, if_neg h, if_neg hT]

/-- Row `i < N` of a batch array of `N` rows lies inside the array. -/
theorem row_in_array (X nsp N i addr : Int) (h0 : 0 ≤ i) (hN : i < N)
    (h : in_row (X + i * nsp) nsp addr) : in_row X (N * nsp) addr := by
  unfold in_row at *
  have hpos : 0 < nsp := by omega
  have hlo : 0 ≤ i * nsp := Int.mul_nonneg h0 (by omega)
  have hmul : (i + 1) * nsp ≤ N * nsp := Int.mul_le_mul_of_nonneg_right (by omega) (by omega)
  have hexp : (i + 1) * nsp = i * nsp + nsp := by ring
  omega

/-- Two different rows share no address, whichever comes first. -/
theorem rows_apart (X nsp i j addr : Int) (hij : i ≠ j)
    (hj : in_row (X + j * nsp) nsp addr) : ¬ in_row (X + i * nsp) nsp addr := by
  rcases lt_or_gt_of_ne hij with h | h
  · exact rows_disjoint X nsp i j addr h hj
  · exact fun hi => rows_disjoint X nsp j i addr h hi hj

/-- A run of `n ≤ N` rows leaves every address outside the output region untouched. -/
theorem run_rows_outside (body : Int → World α → Int × World α) (writes : Int → Int → Prop)
    (Out : Int → Prop) (N : Int)
    (hframe : ∀ i w addr, ¬ writes i addr → (body i w).2.mem addr = w.mem addr)
    (hwr : ∀ i : Int, 0 ≤ i → i < N → ∀ addr, writes i addr → Out addr)
    (w : World α) (n : Nat) (hn : (n : Int) ≤ N) (addr : Int) (h : ¬ Out addr) :
    (run_rows body n w).mem addr = w.mem addr :=
  run_rows_frame body writes hframe w addr n
    (fun i hi hw => h (hwr i (by omega) (by omega) addr hw))

/-- When a row's status does not depend on the output region, the status of row `n` in a
run is the status of the same call made from the entry state. -/
theorem run_rows_status (body : Int → World α → Int × World α) (writes : Int → Int → Prop)
    (Out : Int → Prop) (N : Int)
    (hframe : ∀ i w addr, ¬ writes i addr → (body i w).2.mem addr = w.mem addr)
    (hwr : ∀ i : Int, 0 ≤ i → i < N → ∀ addr, writes i addr → Out addr)
    (hdet : ∀ i : Int, 0 ≤ i → i < N → ∀ w w' : World α,
      (∀ addr, ¬ Out addr → w.mem addr = w'.mem addr) →
        (body i w).1 = (body i w').1 ∧
          ((body i w).1 = 0 →
            ∀ addr, writes i addr → (body i w).2.mem addr = (body i w').2.mem addr))
    (w : World α) (n : Nat) (hn : (n : Int) < N) :
    row_status body n w = (body n w).1 :=
  (hdet n (by omega) hn (run_rows body n w) w
    (fun addr h => run_rows_outside body writes Out N hframe hwr w n (by omega) addr h)).1

/-- Under the same independence, after a run of `m ≤ N` rows the outputs of every row
`j < m` that returned 0 are those of the same call made from the entry state. -/
theorem run_rows_row (body : Int → World α → Int × World α) (writes : Int → Int → Prop)
    (Out : Int → Prop) (N : Int)
    (hframe : ∀ i w addr, ¬ writes i addr → (body i w).2.mem addr = w.mem addr)
    (hwr : ∀ i : Int, 0 ≤ i → i < N → ∀ addr, writes i addr → Out addr)
    (hdisj : ∀ i j : Int, 0 ≤ i → i < N → 0 ≤ j → j < N → i ≠ j →
      ∀ addr, writes j addr → ¬ writes i addr)
    (hdet : ∀ i : Int, 0 ≤ i → i < N → ∀ w w' : World α,
      (∀ addr, ¬ Out addr → w.mem addr = w'.mem addr) →
        (body i w).1 = (body i w').1 ∧
          ((body i w).1 = 0 →
            ∀ addr, writes i addr → (body i w).2.mem addr = (body i w').2.mem addr))
    (w : World α) (j m : Nat) (hjm : j < m) (hm : (m : Int) ≤ N)
    (hj0 : row_status body j w = 0) (addr : Int) (haddr : writes j addr) :
    (run_rows body m w).mem addr = (body j w).2.mem addr := by
  induction m with
  | zero => omega
  | succ m ih =>
    by_cases hj : j = m
    · subst hj
      exact (hdet j (by omega) (by omega) (run_rows body j w) w
        (fun addr h => run_rows_outside body writes Out N hframe hwr w j (by omega) addr
          h)).2 hj0 addr haddr
    · have hstep : (run_rows body (m + 1) w).mem addr = (run_rows body m w).mem addr :=
        hframe m (run_rows body m w) addr
          (hdisj m j (by omega) (by omega) (by omega) (by omega) (by omega) addr haddr)
      rw [hstep]
      exact ih (by omega) (by omega)

theorem pt_row_det (solve_pt : SolvePt α) (hR : ReadsOnlyInputsPt solve_pt)
    (N p T X0 nsp nel lewis M a X1 verbose : Int)
    (hsep : pt_arrays_apart N p T X0 nsp nel lewis M a X1)
    (i : Int) (h0 : 0 ≤ i) (hN : i < N) (w w' : World α)
    (hagree : ∀ addr, ¬ in_row X1 (N * nsp) addr → w.mem addr = w'.mem addr) :
    (pt_row solve_pt p T X0 nsp nel lewis M a X1 verbose i w).1 =
        (pt_row solve_pt p T X0 nsp nel lewis M a X1 verbose i w').1 ∧
      ((pt_row solve_pt p T X0 nsp nel lewis M a X1 verbose i w).1 = 0 →
        ∀ addr, in_row (X1 + i * nsp) nsp addr →
          (pt_row solve_pt p T X0 nsp nel lewis M a X1 verbose i w).2.mem addr =
            (pt_row solve_pt p T X0 nsp nel lewis M a X1 verbose i w').2.mem addr) := by
  have hp : w.mem (p + i) = w'.mem (p + i) :=
    hagree _ (fun h => (hsep _ h).1 (by unfold in_row; omega))
  have hT : w.mem (T + i) = w'.mem (T + i) :=
    hagree _ (fun h => (hsep _ h).2.1 (by unfold in_row; omega))
  have hin : ∀ addr, solver_inputs (X0 + i * nsp) nsp nel lewis M a addr →
      w.mem addr = w'.mem addr := by
    intro addr hi
    refine hagree addr (fun h => ?_)
    rcases hi with h1 | h1 | h1 | h1
    · exact (hsep _ h).2.2.1 (row_in_array X0 nsp N i addr h0 hN h1)
    · exact (hsep _ h).2.2.2.1 h1
    · exact (hsep _ h).2.2.2.2.1 h1
    · exact (hsep _ h).2.2.2.2.2 h1
  have h := hR (w'.mem (p + i)) (w'.mem (T + i)) (X0 + i * nsp) nsp nel lewis M a
    (X1 + i * nsp) verbose w.mem w'.mem hin
  simp only [pt_row, pt, call_solve_pt, hp, hT]
  exact h

theorem rhou_row_det (solve_rhou : SolveRhou α) (hR : ReadsOnlyInputsRhou solve_rhou)
    (N rho u X0 nsp nel lewis M a X1 T verbose : Int)
    (hsep : rhou_arrays_apart N rho u X0 nsp nel lewis M a X1 T)
    (i : Int) (h0 : 0 ≤ i) (hN : i < N) (w w' : World α)
    (hagree : ∀ addr, ¬ (in_row X1 (N * nsp) addr ∨ in_row T N addr) →
      w.mem addr = w'.mem addr) :
    (rhou_row solve_rhou rho u X0 nsp nel lewis M a X1 T verbose i w).1 =
        (rhou_row solve_rhou rho u X0 nsp nel lewis M a X1 T verbose i w').1 ∧
      ((rhou_row solve_rhou rho u X0 nsp nel lewis M a X1 T verbose i w).1 = 0 →
        ∀ addr, in_row (X1 + i * nsp) nsp addr ∨ addr = T + i →
          (rhou_row solve_rhou rho u X0 nsp nel lewis M a X1 T verbose i w).2.mem addr =
            (rhou_row solve_rhou rho u X0 nsp nel lewis M a X1 T verbose i w').2.mem
              addr) := by
  have hrho : w.mem (rho + i) = w'.mem (rho + i) :=
    hagree _ (fun h => (hsep _ h).1 (by unfold in_row; omega))
  have hu : w.mem (u + i) = w'.mem (u + i) :=
    hagree _ (fun h => (hsep _ h).2.1 (by unfold in_row; omega))
  have hin : ∀ addr, solver_inputs (X0 + i * nsp) nsp nel lewis M a addr →
      w.mem addr = w'.mem addr := by
    intro addr hi
    refine hagree addr (fun h => ?_)
    rcases hi with h1 | h1 | h1 | h1
    · exact (hsep _ h).2.2.1 (row_in_array X0 nsp N i addr h0 hN h1)
    · exact (hsep _ h).2.2.2.1 h1
    · exact (hsep _ h).2.2.2.2.1 h1
    · exact (hsep _ h).2.2.2.2.2 h1
  have h := hR (w'.mem (rho + i)) (w'.mem (u + i)) (X0 + i * nsp) nsp nel lewis M a
    (X1 + i * nsp) (T + i) verbose w.mem w'.mem hin
  simp only [rhou_row, rhou, call_solve_rhou, hrho, hu]
  refine ⟨h.1, fun h0 addr haddr => ?_⟩
  rcases haddr with hrow | heq
  · exact (h.2 h0).2 addr hrow
  · rw [heq]
    exact (h.2 h0).1

/-- The write sets of two different rows of `batch_rhou` share no address. -/
theorem rhou_writes_apart (N nsp X1 T : Int) (hTX : T_X1_apart N nsp X1 T)
    (i j : Int) (hi0 : 0 ≤ i) (hiN : i < N) (hj0 : 0 ≤ j) (hjN : j < N) (hij : i ≠ j)
    (addr : Int) (hj : in_row (X1 + j * nsp) nsp addr ∨ addr = T + j) :
    ¬ (in_row (X1 + i * nsp) nsp addr ∨ addr = T + i) := by
  intro hi
  rcases hj with hj | hj <;> rcases hi with hi | hi
  · exact rows_apart X1 nsp i j addr hij hj hi
  · rw [hi] at hj
    exact hTX i j hi0 hiN hj0 hjN hj
  · rw [hj] at hi
    exact hTX j i hj0 hjN hi0 hiN hi
  · omega

theorem rhou_writes_in_out (N nsp X1 T : Int) (i : Int) (h0 : 0 ≤ i) (hN : i < N)
    (addr : Int) (h : in_row (X1 + i * nsp) nsp addr ∨ addr = T + i) :
    in_row X1 (N * nsp) addr ∨ in_row T N addr := by
  rcases h with h | h
  · exact Or.inl (row_in_array X1 nsp N i addr h0 hN h)
  · exact Or.inr (by unfold in_row; omega)

theorem demo_solve_pt_reads : ReadsOnlyInputsPt demo_solve_pt := by
  intro p T X0 nsp nel lewis M a X1 verbose m m' hagree
  refine ⟨rfl, fun _ addr haddr => ?_⟩
  have hin : m (X0 + (addr - X1)) = m' (X0 + (addr - X1)) :=
    hagree _ (Or.inl (by unfold in_row at *; omega))
  unfold in_row at haddr
  simp only [demo_solve_pt, if_pos haddr, hin]

theorem early_solve_pt_writes : WritesOnlyX1 early_solve_pt := by
  intro p T X0 nsp nel lewis M a X1 verbose m addr h
  by_cases hT : T < 0
  · simp only [early_solve_pt, if_pos hT]
  · simp only [early_solve_pt, if_neg hT]
    exact demo_solve_pt_writes p T X0 nsp nel lewis M a X1 verbose m addr h

theorem early_solve_pt_reads : ReadsOnlyInputsPt early_solve_pt := by
  intro p T X0 nsp nel lewis M a X1 verbose m m' hagree
  by_cases hT : T < 0
  · simp [early_solve_pt, hT]
  · simp only [early_solve_pt, if_neg hT]
    exact demo_solve_pt_reads p T X0 nsp nel lewis M a X1 verbose m m' hagree

theorem demo_solve_rhou_reads : ReadsOnlyInputsRhou demo_solve_rhou := by
  intro rho u X0 nsp nel lewis M a X1 T verbose m m' hagree
  refine ⟨rfl, fun _ => ⟨?_, fun addr haddr => ?_⟩⟩
  · by_cases hT : in_row X1 nsp T
    · have hin : m (X0 + (T - X1)) = m' (X0 + (T - X1)) :=
        hagree _ (Or.inl (by unfold in_row at *; omega))
      unfold in_row at hT
      simp only [demo_solve_rhou, if_pos hT, hin]
    · unfold in_row at hT
      simp only [demo_solve_rhou, if_neg hT, if_true]
  · have hin : m (X0 + (addr - X1)) = m' (X0 + (addr - X1)) :=
      hagree _ (Or.inl (by unfold in_row at *; omega))
    unfold in_row at haddr
    simp only [demo_solve_rhou, if_pos haddr, hin]

theorem demo_pt_arrays_apart : pt_arrays_apart 3 0 10 20 2 1 100 200 300 40 := by
  intro addr h
  unfold in_row at *
  omega

theorem demo_rhou_arrays_apart : rhou_arrays_apart 3 0 10 20 2 1 100 200 300 40 50 := by
  intro addr h
  unfold in_row at *
  omega

/-- With the outputs apart from `rho` and `u`, the call recorded for row `i` carries the
entry values `rho[i]`, `u[i]`. -/
theorem rhou_run_calls_entry (solve_rhou : SolveRhou α) (hW : WritesOnlyX1T solve_rhou)
    (N rho u X0 nsp nel lewis M a X1 T verbose : Int)
    (hsep : rhou_arrays_apart N rho u X0 nsp nel lewis M a X1 T)
    (w : World α) (n : Nat) (hn : ∀ i : Nat, i < n → (i : Int) < N) :
    (run_rows (rhou_row solve_rhou rho u X0 nsp nel lewis M a X1 T verbose) n w).calls =
      w.calls ++ (List.range n).map (fun i : Nat =>
        Call.solve_rhou (w.mem (rho + i)) (w.mem (u + i)) (X0 + i * nsp) nsp nel lewis M a
          (X1 + i * nsp) (T + i) verbose) := by
  rw [run_rows_calls _ _ (rhou_row_calls solve_rhou rho u X0 nsp nel lewis M a X1 T verbose)
    w n]
  congr 1
  refine List.map_congr_left (fun i hi => ?_)
  have hi' : (i : Int) < N := hn i (List.mem_range.mp hi)
  have hout : ∀ addr : Int, ¬ (in_row X1 (N * nsp) addr ∨ in_row T N addr) →
      (run_rows (rhou_row solve_rhou rho u X0 nsp nel lewis M a X1 T verbose) i w).mem addr =
        w.mem addr := fun addr h =>
    run_rows_outside _ (fun i addr => in_row (X1 + i * nsp) nsp addr ∨ addr = T + i)
      (fun addr => in_row X1 (N * nsp) addr ∨ in_row T N addr) N
      (fun i w addr h => rhou_row_frame solve_rhou hW rho u X0 nsp nel lewis M a X1 T
        verbose i w addr h)
      (fun i h0 hN addr h => rhou_writes_in_out N nsp X1 T i h0 hN addr h)
      w i (by omega) addr h
  have hrho := hout (rho + i) (fun h => (hsep _ h).1 (by unfold in_row; omega))
  have hu := hout (u + i) (fun h => (hsep _ h).2.1 (by unfold in_row; omega))
  simp only [rhou_call, hrho, hu]

/-- There is at most one first failure. -/
theorem first_failure_unique (body : Int → World α → Int × World α) (w : World α)
    (k k' : Nat) (h : first_failure body w k) (h' : first_failure body w k') : k = k' := by
  rcases Nat.lt_trichotomy k k' with hlt | heq | hgt
  · exact absurd (h'.2 k hlt) h.1
  · exact heq
  · exact absurd (h.2 k' hgt) h'.1

/-- Two loops whose bodies return the same status and leave the same memory whenever they
start from the same memory return the same status and leave the same memory. -/
theorem batch_loop_same_mem (body body' : Int → World α → Int × World α) (name : String)
    (h : ∀ i (w w' : World α), w.mem = w'.mem →
      (body i w).1 = (body' i w').1 ∧ (body i w).2.mem = (body' i w').2.mem)
    (fuel : Nat) (i : Int) (w w' : World α) (hw : w.mem = w'.mem) :
    (batch_loop body name fuel i w).1 = (batch_loop body' name fuel i w').1 ∧
      (batch_loop body name fuel i w).2.mem = (batch_loop body' name fuel i w').2.mem := by
  induction fuel generalizing i w w' with
  | zero => exact ⟨rfl, hw⟩
  | succ n ih =>
    have hb := h i w w' hw
    by_cases h0 : (body i w).1 = 0
    · have h0' : (body' i w').1 = 0 := by rw [← hb.1]; exact h0
      simp only [batch_loop, h0, h0', ne_eq, not_true_eq_false, if_false]
      exact ih (i + 1) _ _ hb.2
    · have h0' : (body' i w').1 ≠ 0 := by rw [← hb.1]; exact h0
      have h0n : (body i w).1 ≠ 0 := h0
      simp only [batch_loop, h0n, h0', ne_eq, not_false_eq_true, if_true, printf_mem]
      exact hb

theorem pt_row_verbose (solve_pt : SolvePt α) (hv : VerboseOnlyTracesPt solve_pt)
    (p T X0 nsp nel lewis M a X1 v1 v2 i : Int) (w w' : World α) (hw : w.mem = w'.mem) :
    (pt_row solve_pt p T X0 nsp nel lewis M a X1 v1 i w).1 =
        (pt_row solve_pt p T X0 nsp nel lewis M a X1 v2 i w').1 ∧
      (pt_row solve_pt p T X0 nsp nel lewis M a X1 v1 i w).2.mem =
        (pt_row solve_pt p T X0 nsp nel lewis M a X1 v2 i w').2.mem := by
  simp only [pt_row, pt, call_solve_pt, hw]
  exact hv _ _ _ _ _ _ _ _ _ _ _ _

theorem rhou_row_verbose (solve_rhou : SolveRhou α) (hv : VerboseOnlyTracesRhou solve_rhou)
    (rho u X0 nsp nel lewis M a X1 T v1 v2 i : Int) (w w' : World α)
    (hw : w.mem = w'.mem) :
    (rhou_row solve_rhou rho u X0 nsp nel lewis M a X1 T v1 i w).1 =
        (rhou_row solve_rhou rho u X0 nsp nel lewis M a X1 T v2 i w').1 ∧
      (rhou_row solve_rhou rho u X0 nsp nel lewis M a X1 T v1 i w).2.mem =
        (rhou_row solve_rhou rho u X0 nsp nel lewis M a X1 T v2 i w').2.mem := by
  simp only [rhou_row, rhou, call_solve_rhou, hw]
  exact hv _ _ _ _ _ _ _ _ _ _ _ _ _

theorem demo_solve_pt_verbose : VerboseOnlyTracesPt demo_solve_pt :=
  fun _ _ _ _ _ _ _ _ _ _ _ _ => ⟨rfl, rfl⟩

theorem demo_solve_rhou_verbose : VerboseOnlyTracesRhou demo_solve_rhou :=
  fun _ _ _ _ _ _ _ _ _ _ _ _ _ => ⟨rfl, rfl⟩

end Runs

section Claims

variable {α : Type}

/-- C1. Batch/single equivalence: `batch_pt` with `N = 1`, on the one-element arrays stored
at `p` and `T` and the single row at `X0`, returns the same status and leaves the same
memory (hence the same `nsp` values of `X1`) as the direct call of `pt` on the values
`p[0]`, `T[0]` and the same `X0`, `X1`, for every solver and every input. -/
theorem batch_pt_one_eq_pt (solve_pt : SolvePt α)
    (p T X0 nsp nel lewis M a X1 verbose : Int) (w : World α) :
    (batch_pt solve_pt 1 p T X0 nsp nel lewis M a X1 verbose w).1 =
        (pt solve_pt (w.mem p) (w.mem T) X0 nsp nel lewis M a X1 verbose w).1 ∧
      (batch_pt solve_pt 1 p T X0 nsp nel lewis M a X1 verbose w).2.mem =
        (pt solve_pt (w.mem p) (w.mem T) X0 nsp nel lewis M a X1 verbose w).2.mem := by
  have h1 : ((1 : Int) - 0).toNat = 1 := rfl
  unfold batch_pt
  rw [h1]
  simp only [batch_pt_loop, pt, Int.add_zero, Int.zero_mul]
  constructor
  · split
    · rfl
    · next h => exact (not_not.mp h).symm
  · split <;> rfl

/-- C1, on the toy solver: one row at `X0 = 20`, `X1 = 40` with `p[0] = 0`, `T[0] = 10`. -/
theorem batch_pt_one_eq_pt_witness :
    (batch_pt demo_solve_pt 1 0 10 20 2 1 100 200 300 40 1 demo_world).1 =
        (pt demo_solve_pt 0 10 20 2 1 100 200 300 40 1 demo_world).1 ∧
      (batch_pt demo_solve_pt 1 0 10 20 2 1 100 200 300 40 1 demo_world).2.mem =
        (pt demo_solve_pt 0 10 20 2 1 100 200 300 40 1 demo_world).2.mem :=
  batch_pt_one_eq_pt demo_solve_pt 0 10 20 2 1 100 200 300 40 1 demo_world

/-- C2. `batch_pt` returns the first non-zero status encountered: when the solves run in
increasing index order and row `k < N` is the first whose solve returns non-zero,
`batch_pt` returns exactly that status; when every row `i < N` returns 0 it returns 0;
hence it returns 0 if and only if every one of the `N` solves returns 0. -/
theorem batch_pt_first_nonzero_status (solve_pt : SolvePt α)
    (N p T X0 nsp nel lewis M a X1 verbose : Int) (w : World α) :
    (∀ k : Nat, (k : Int) < N →
        first_failure (pt_row solve_pt p T X0 nsp nel lewis M a X1 verbose) w k →
        (batch_pt solve_pt N p T X0 nsp nel lewis M a X1 verbose w).1 =
          row_status (pt_row solve_pt p T X0 nsp nel lewis M a X1 verbose) k w) ∧
      ((∀ i : Nat, (i : Int) < N →
          row_status (pt_row solve_pt p T X0 nsp nel lewis M a X1 verbose) i w = 0) →
        (batch_pt solve_pt N p T X0 nsp nel lewis M a X1 verbose w).1 = 0) ∧
      ((batch_pt solve_pt N p T X0 nsp nel lewis M a X1 verbose w).1 = 0 ↔
        ∀ i : Nat, (i : Int) < N →
          row_status (pt_row solve_pt p T X0 nsp nel lewis M a X1 verbose) i w = 0) := by
  have hfail : ∀ k : Nat, (k : Int) < N →
      first_failure (pt_row solve_pt p T X0 nsp nel lewis M a X1 verbose) w k →
      (batch_pt solve_pt N p T X0 nsp nel lewis M a X1 verbose w).1 =
        row_status (pt_row solve_pt p T X0 nsp nel lewis M a X1 verbose) k w := by
    intro k hk hf
    rw [batch_pt_eq, batch_loop_fail_zero _ _ w N.toNat k (by omega) hf]
  have hok : (∀ i : Nat, (i : Int) < N →
      row_status (pt_row solve_pt p T X0 nsp nel lewis M a X1 verbose) i w = 0) →
      (batch_pt solve_pt N p T X0 nsp nel lewis M a X1 verbose w).1 = 0 := by
    intro hall
    rw [batch_pt_eq, batch_loop_ok_zero _ _ w N.toNat (fun j hj => hall j (by omega))]
  refine ⟨hfail, hok, ?_, hok⟩
  intro hzero i hi
  rcases first_failure_cases (pt_row solve_pt p T X0 nsp nel lewis M a X1 verbose) w
    N.toNat with hall | ⟨k, hk, hf⟩
  · exact hall i (by omega)
  · have hst := hfail k (by omega) hf
    rw [hzero] at hst
    exact absurd hst.symm hf.1

/-- C2, on the toy solver: three rows, the second has a negative temperature and its
status 3 is what `batch_pt` returns. -/
theorem batch_pt_first_nonzero_status_witness :
    (batch_pt demo_solve_pt 3 0 10 20 2 1 100 200 300 40 1 demo_world).1 = 3 :=
  ((batch_pt_first_nonzero_status demo_solve_pt 3 0 10 20 2 1 100 200 300 40 1
    demo_world).1 1 (by decide) (by decide)).trans (by decide)

/-- C10. Empty batch: for every `N ≤ 0`, `batch_pt` and `batch_rhou` return 0 and leave the
whole state as it was: no solver call is recorded, nothing is printed, memory (`X1`, `T`)
is unchanged. A negative `N` is accepted as success. -/
theorem batch_nonpositive_N (solve_pt : SolvePt α) (solve_rhou : SolveRhou α)
    (N p T rho u T' X0 nsp nel lewis M a X1 verbose : Int) (w : World α) (hN : N ≤ 0) :
    batch_pt solve_pt N p T X0 nsp nel lewis M a X1 verbose w = (0, w) ∧
      batch_rhou solve_rhou N rho u X0 nsp nel lewis M a X1 T' verbose w = (0, w) := by
  have h0 : (N - 0).toNat = 0 := by omega
  unfold batch_pt batch_rhou
  rw [h0]
  exact ⟨rfl, rfl⟩

/-- C10, on the toy solvers with `N = -2`. -/
theorem batch_nonpositive_N_witness :
    batch_pt demo_solve_pt (-2) 0 10 20 2 1 100 200 300 40 1 demo_world = (0, demo_world) ∧
      batch_rhou demo_solve_rhou (-2) 0 10 20 2 1 100 200 300 40 50 1 demo_world =
        (0, demo_world) :=
  batch_nonpositive_N demo_solve_pt demo_solve_rhou (-2) 0 10 0 10 50 20 2 1 100 200 300 40 1
    demo_world (by decide)

/-- C3. `batch_pt` is fail-fast: when row `k < N` is the first whose solve returns non-zero,
the solver calls made are exactly those of rows `0, 1, ..., k`, once each and in this
order (none for a row `j > k`, no retry), and, the solver writing only its `nsp` output
entries, every output row `X1[j*nsp .. (j+1)*nsp)` with `j > k` is as it was on entry. -/
theorem batch_pt_fail_fast (solve_pt : SolvePt α)
    (N p T X0 nsp nel lewis M a X1 verbose : Int) (w : World α) (k : Nat)
    (hk : (k : Int) < N)
    (hf : first_failure (pt_row solve_pt p T X0 nsp nel lewis M a X1 verbose) w k) :
    (batch_pt solve_pt N p T X0 nsp nel lewis M a X1 verbose w).2.calls =
        w.calls ++ (List.range (k + 1)).map (fun i : Nat =>
          pt_call p T X0 nsp nel lewis M a X1 verbose i
            (run_rows (pt_row solve_pt p T X0 nsp nel lewis M a X1 verbose) i w)) ∧
      (WritesOnlyX1 solve_pt → ∀ j : Int, (k : Int) < j →
        ∀ addr, in_row (X1 + j * nsp) nsp addr →
          (batch_pt solve_pt N p T X0 nsp nel lewis M a X1 verbose w).2.mem addr =
            w.mem addr) := by
  rw [batch_pt_eq, batch_loop_fail_zero _ _ w N.toNat k (by omega) hf]
  refine ⟨?_, ?_⟩
  · rw [printf_calls]
    exact run_rows_calls _ _ (pt_row_calls solve_pt p T X0 nsp nel lewis M a X1 verbose) w
      (k + 1)
  · intro hW j hj addr haddr
    rw [printf_mem]
    refine run_rows_frame _ (fun i addr => in_row (X1 + i * nsp) nsp addr)
      (fun i w addr h => pt_row_frame solve_pt hW p T X0 nsp nel lewis M a X1 verbose i w
        addr h) w addr (k + 1) ?_
    intro i hi
    exact rows_disjoint X1 nsp i j addr (by omega) haddr

/-- C3, on the toy solver: three rows, the second fails; two calls are recorded, for rows
0 and 1, and the third output row (addresses 44 and 45) is untouched. -/
theorem batch_pt_fail_fast_witness :
    (batch_pt demo_solve_pt 3 0 10 20 2 1 100 200 300 40 1 demo_world).2.calls =
        [Call.solve_pt 0 10 20 2 1 100 200 300 40 1,
         Call.solve_pt 1 (-5) 22 2 1 100 200 300 42 1] ∧
      (batch_pt demo_solve_pt 3 0 10 20 2 1 100 200 300 40 1 demo_world).2.mem 44 = 44 ∧
      (batch_pt demo_solve_pt 3 0 10 20 2 1 100 200 300 40 1 demo_world).2.mem 45 = 45 :=
  have h := batch_pt_fail_fast demo_solve_pt 3 0 10 20 2 1 100 200 300 40 1 demo_world 1
    (by decide) (by decide)
  ⟨h.1.trans (by decide),
   (h.2 demo_solve_pt_writes 2 (by decide) 44 (by decide)).trans (by decide),
   (h.2 demo_solve_pt_writes 2 (by decide) 45 (by decide)).trans (by decide)⟩

/-- C5, as stated, fails when the output arrays overlap. Toy solver (it writes only its
`nsp` entries of `X1` and `*T`), `N = 3`, `nsp = 2`, `X1` at 40 and `T` at 44, so that
`T[0]` is the first entry of row 2 of `X1`. Row 1 is the first failure and `batch_rhou`
returns its status 4, yet row 2 of `X1` (`2 > 1`) has changed: address 44 held 44 on entry
and holds 10, the temperature that solve 0 stored through `Ti = T + 0`. -/
theorem batch_rhou_fail_fast_overlap_counterexample :
    WritesOnlyX1T demo_solve_rhou ∧
      first_failure (rhou_row demo_solve_rhou 0 10 20 2 1 100 200 300 40 44 1) demo_world 1 ∧
      (batch_rhou demo_solve_rhou 3 0 10 20 2 1 100 200 300 40 44 1 demo_world).1 = 4 ∧
      in_row (40 + 2 * 2) 2 44 ∧
      demo_world.mem 44 = 44 ∧
      (batch_rhou demo_solve_rhou 3 0 10 20 2 1 100 200 300 40 44 1 demo_world).2.mem 44 =
        10 :=
  ⟨demo_solve_rhou_writes, by decide, by decide, by decide, by decide, by decide⟩

/-- C5, amended. `batch_rhou` returns the first non-zero status and is fail-fast: when row
`k < N` is the first whose solve returns non-zero, `batch_rhou` returns that status and the
solver calls made are exactly those of rows `0 .. k` in order (none for `j > k`); when no
solve fails it returns 0. Provided the solver writes only its `nsp` composition entries and
its one temperature entry, the output arrays `T [N]` and `X1 [N,nsp]` do not overlap, and
`N*nsp` fits an `int`, `T[j]` and row `j` of `X1` are unchanged for every `k < j < N`. -/
theorem batch_rhou_fail_fast (solve_rhou : SolveRhou α)
    (N rho u X0 nsp nel lewis M a X1 T verbose : Int) (w : World α) :
    (∀ k : Nat, (k : Int) < N →
        first_failure (rhou_row solve_rhou rho u X0 nsp nel lewis M a X1 T verbose) w k →
        (batch_rhou solve_rhou N rho u X0 nsp nel lewis M a X1 T verbose w).1 =
            row_status (rhou_row solve_rhou rho u X0 nsp nel lewis M a X1 T verbose) k w ∧
          (batch_rhou solve_rhou N rho u X0 nsp nel lewis M a X1 T verbose w).2.calls =
            w.calls ++ (List.range (k + 1)).map (fun i : Nat =>
              rhou_call rho u X0 nsp nel lewis M a X1 T verbose i
                (run_rows (rhou_row solve_rhou rho u X0 nsp nel lewis M a X1 T verbose) i
                  w)) ∧
          (WritesOnlyX1T solve_rhou → T_X1_apart N nsp X1 T → offsets_in_range N nsp →
            ∀ j : Int, (k : Int) < j → j < N →
              (batch_rhou solve_rhou N rho u X0 nsp nel lewis M a X1 T verbose w).2.mem
                  (T + j) = w.mem (T + j) ∧
                ∀ addr, in_row (X1 + j * nsp) nsp addr →
                  (batch_rhou solve_rhou N rho u X0 nsp nel lewis M a X1 T verbose w).2.mem
                    addr = w.mem addr)) ∧
      ((∀ i : Nat, (i : Int) < N →
          row_status (rhou_row solve_rhou rho u X0 nsp nel lewis M a X1 T verbose) i w = 0) →
        (batch_rhou solve_rhou N rho u X0 nsp nel lewis M a X1 T verbose w).1 = 0) := by
  refine ⟨?_, ?_⟩
  · intro k hk hf
    rw [batch_rhou_eq, batch_loop_fail_zero _ _ w N.toNat k (by omega) hf]
    refine ⟨rfl, ?_, ?_⟩
    · rw [printf_calls]
      exact run_rows_calls _ _
        (rhou_row_calls solve_rhou rho u X0 nsp nel lewis M a X1 T verbose) w (k + 1)
    · intro hW hsep _ j hj hjN
      have hframe : ∀ addr : Int,
          (∀ i : Nat, i < k + 1 → ¬ (in_row (X1 + (i : Int) * nsp) nsp addr ∨ addr = T + i)) →
          (run_rows (rhou_row solve_rhou rho u X0 nsp nel lewis M a X1 T verbose) (k + 1)
            w).mem addr = w.mem addr := fun addr hout =>
        run_rows_frame _ (fun i addr => in_row (X1 + i * nsp) nsp addr ∨ addr = T + i)
          (fun i w addr h => rhou_row_frame solve_rhou hW rho u X0 nsp nel lewis M a X1 T
            verbose i w addr h) w addr (k + 1) hout
      refine ⟨?_, ?_⟩
      · rw [printf_mem]
        refine hframe (T + j) (fun i hi hor => ?_)
        rcases hor with hrow | heq
        · exact hsep j i (by omega) hjN (by omega) (by omega) hrow
        · omega
      · intro addr haddr
        rw [printf_mem]
        refine hframe addr (fun i hi hor => ?_)
        rcases hor with hrow | heq
        · exact rows_disjoint X1 nsp i j addr (by omega) haddr hrow
        · rw [heq] at haddr
          exact hsep i j (by omega) (by omega) (by omega) hjN haddr
  · intro hall
    rw [batch_rhou_eq, batch_loop_ok_zero _ _ w N.toNat (fun j hj => hall j (by omega))]

/-- C5 amended, on the toy solver with `X1` at 40 and `T` at 50: three rows, the second
has a negative energy; `batch_rhou` returns its status 4, records the calls of rows 0 and 1
only, and leaves `T[2]` (address 52) and the third output row (addresses 44, 45)
untouched. -/
theorem batch_rhou_fail_fast_witness :
    (batch_rhou demo_solve_rhou 3 0 10 20 2 1 100 200 300 40 50 1 demo_world).1 = 4 ∧
      (batch_rhou demo_solve_rhou 3 0 10 20 2 1 100 200 300 40 50 1 demo_world).2.calls =
        [Call.solve_rhou 0 10 20 2 1 100 200 300 40 50 1,
         Call.solve_rhou 1 (-5) 22 2 1 100 200 300 42 51 1] ∧
      (batch_rhou demo_solve_rhou 3 0 10 20 2 1 100 200 300 40 50 1 demo_world).2.mem 52 =
        52 ∧
      (batch_rhou demo_solve_rhou 3 0 10 20 2 1 100 200 300 40 50 1 demo_world).2.mem 44 =
        44 ∧
      (batch_rhou demo_solve_rhou 3 0 10 20 2 1 100 200 300 40 50 1 demo_world).2.mem 45 =
        45 :=
  have h := (batch_rhou_fail_fast demo_solve_rhou 3 0 10 20 2 1 100 200 300 40 50 1
    demo_world).1 1 (by decide) (by decide)
  have hfr := h.2.2 demo_solve_rhou_writes demo_T_X1_apart (by decide) 2 (by decide)
    (by decide)
  ⟨h.1.trans (by decide), h.2.1.trans (by decide), hfr.1.trans (by decide),
   (hfr.2 44 (by decide)).trans (by decide), (hfr.2 45 (by decide)).trans (by decide)⟩

/-- C7. The failing index is reported on the output stream. When `batch_pt`
(resp. `batch_rhou`) returns a non-zero status, there is a first failing row `k < N` and
the output is the entry output, then what the solver calls of rows `0 .. k` printed, then
exactly one line `Error in batch_pt @ position: k` (resp. `Error in batch_rhou @ position:
k`); when it returns 0 the output is the entry output followed only by what the `N` solver
calls printed. This holds for every value of `verbose`. -/
theorem batch_error_message (solve_pt : SolvePt α) (solve_rhou : SolveRhou α)
    (N p T rho u T' X0 nsp nel lewis M a X1 verbose : Int) (w : World α) :
    ((batch_pt solve_pt N p T X0 nsp nel lewis M a X1 verbose w).1 ≠ 0 →
        ∃ k : Nat, (k : Int) < N ∧
          first_failure (pt_row solve_pt p T X0 nsp nel lewis M a X1 verbose) w k ∧
          (batch_pt solve_pt N p T X0 nsp nel lewis M a X1 verbose w).2.out =
            w.out ++ ((List.range (k + 1)).map (fun i : Nat =>
              pt_printed solve_pt p T X0 nsp nel lewis M a X1 verbose i
                (run_rows (pt_row solve_pt p T X0 nsp nel lewis M a X1 verbose) i
                  w))).flatten ++
            ["Error in batch_pt @ position: " ++ toString (k : Int)]) ∧
      ((batch_pt solve_pt N p T X0 nsp nel lewis M a X1 verbose w).1 = 0 →
        (batch_pt solve_pt N p T X0 nsp nel lewis M a X1 verbose w).2.out =
          w.out ++ ((List.range N.toNat).map (fun i : Nat =>
            pt_printed solve_pt p T X0 nsp nel lewis M a X1 verbose i
              (run_rows (pt_row solve_pt p T X0 nsp nel lewis M a X1 verbose) i
                w))).flatten) ∧
      ((batch_rhou solve_rhou N rho u X0 nsp nel lewis M a X1 T' verbose w).1 ≠ 0 →
        ∃ k : Nat, (k : Int) < N ∧
          first_failure (rhou_row solve_rhou rho u X0 nsp nel lewis M a X1 T' verbose) w k ∧
          (batch_rhou solve_rhou N rho u X0 nsp nel lewis M a X1 T' verbose w).2.out =
            w.out ++ ((List.range (k + 1)).map (fun i : Nat =>
              rhou_printed solve_rhou rho u X0 nsp nel lewis M a X1 T' verbose i
                (run_rows (rhou_row solve_rhou rho u X0 nsp nel lewis M a X1 T' verbose) i
                  w))).flatten ++
            ["Error in batch_rhou @ position: " ++ toString (k : Int)]) ∧
      ((batch_rhou solve_rhou N rho u X0 nsp nel lewis M a X1 T' verbose w).1 = 0 →
        (batch_rhou solve_rhou N rho u X0 nsp nel lewis M a X1 T' verbose w).2.out =
          w.out ++ ((List.range N.toNat).map (fun i : Nat =>
            rhou_printed solve_rhou rho u X0 nsp nel lewis M a X1 T' verbose i
              (run_rows (rhou_row solve_rhou rho u X0 nsp nel lewis M a X1 T' verbose) i
                w))).flatten) := by
  refine ⟨?_, ?_, ?_, ?_⟩
  · intro hne
    rcases first_failure_cases (pt_row solve_pt p T X0 nsp nel lewis M a X1 verbose) w
      N.toNat with hall | ⟨k, hk, hf⟩
    · rw [batch_pt_eq, batch_loop_ok_zero _ _ w N.toNat hall] at hne
      exact absurd rfl hne
    · refine ⟨k, by omega, hf, ?_⟩
      rw [batch_pt_eq, batch_loop_fail_zero _ _ w N.toNat k hk hf, printf_out,
        run_rows_out _ _ (pt_row_out solve_pt p T X0 nsp nel lewis M a X1 verbose) w (k + 1)]
  · intro h0
    rcases first_failure_cases (pt_row solve_pt p T X0 nsp nel lewis M a X1 verbose) w
      N.toNat with hall | ⟨k, hk, hf⟩
    · rw [batch_pt_eq, batch_loop_ok_zero _ _ w N.toNat hall,
        run_rows_out _ _ (pt_row_out solve_pt p T X0 nsp nel lewis M a X1 verbose) w N.toNat]
    · rw [batch_pt_eq, batch_loop_fail_zero _ _ w N.toNat k hk hf] at h0
      exact absurd h0 hf.1
  · intro hne
    rcases first_failure_cases
      (rhou_row solve_rhou rho u X0 nsp nel lewis M a X1 T' verbose) w
      N.toNat with hall | ⟨k, hk, hf⟩
    · rw [batch_rhou_eq, batch_loop_ok_zero _ _ w N.toNat hall] at hne
      exact absurd rfl hne
    · refine ⟨k, by omega, hf, ?_⟩
      rw [batch_rhou_eq, batch_loop_fail_zero _ _ w N.toNat k hk hf, printf_out,
        run_rows_out _ _ (rhou_row_out solve_rhou rho u X0 nsp nel lewis M a X1 T' verbose)
          w (k + 1)]
  · intro h0
    rcases first_failure_cases
      (rhou_row solve_rhou rho u X0 nsp nel lewis M a X1 T' verbose) w
      N.toNat with hall | ⟨k, hk, hf⟩
    · rw [batch_rhou_eq, batch_loop_ok_zero _ _ w N.toNat hall,
        run_rows_out _ _ (rhou_row_out solve_rhou rho u X0 nsp nel lewis M a X1 T' verbose)
          w N.toNat]
    · rw [batch_rhou_eq, batch_loop_fail_zero _ _ w N.toNat k hk hf] at h0
      exact absurd h0 hf.1

/-- C7, on the toy solver with tracing on: three rows, the second fails; the output is the
two lines of the two solver calls, then the one error line with index 1. -/
theorem batch_error_message_witness :
    (batch_pt demo_solve_pt 3 0 10 20 2 1 100 200 300 40 1 demo_world).2.out =
      ["solve_pt called", "solve_pt called", "Error in batch_pt @ position: 1"] := by
  obtain ⟨k, _, hf, hout⟩ := (batch_error_message demo_solve_pt demo_solve_rhou 3 0 10 0 10
    50 20 2 1 100 200 300 40 1 demo_world).1 (by decide)
  have hk : k = 1 := first_failure_unique _ _ k 1 hf (by decide)
  subst hk
  exact hout.trans (by decide)

/-- C4, as stated, fails when the output array overlaps the input array `T`. Toy solver
(it writes only its `nsp` entries of `X1`), `N = 3`, `nsp = 2`, `X0` at 20, and
`X1 = T` at 10; `X0` and `X1` are disjoint arrays of `N*nsp` entries. Solve 0 writes 200,
210 to row 0 of `X1`, that is over `T[0]`, `T[1]`; line 89 then reads `T[1] = 210` where
the entry value was -5. `batch_pt` returns 0, so row 1 is processed successfully, and row 1
holds 4621, 4831, while the direct call `pt(p[1], T[1], X0 + 2, .., X1 + 2, ..)` on the
entry values returns 3 and leaves -109, -114. -/
theorem batch_pt_rows_overlap_counterexample :
    WritesOnlyX1 demo_solve_pt ∧
      (∀ addr, in_row 10 (3 * 2) addr → ¬ in_row 20 (3 * 2) addr) ∧
      (batch_pt demo_solve_pt 3 0 10 20 2 1 100 200 300 10 1 demo_world).1 = 0 ∧
      in_row (10 + 1 * 2) 2 12 ∧
      (batch_pt demo_solve_pt 3 0 10 20 2 1 100 200 300 10 1 demo_world).2.mem 12 = 4621 ∧
      (batch_pt demo_solve_pt 3 0 10 20 2 1 100 200 300 10 1 demo_world).2.mem 13 = 4831 ∧
      (pt demo_solve_pt (demo_world.mem (0 + 1)) (demo_world.mem (10 + 1)) (20 + 1 * 2) 2 1
        100 200 300 (10 + 1 * 2) 1 demo_world).1 = 3 ∧
      (pt demo_solve_pt (demo_world.mem (0 + 1)) (demo_world.mem (10 + 1)) (20 + 1 * 2) 2 1
        100 200 300 (10 + 1 * 2) 1 demo_world).2.mem 12 = -109 ∧
      (pt demo_solve_pt (demo_world.mem (0 + 1)) (demo_world.mem (10 + 1)) (20 + 1 * 2) 2 1
        100 200 300 (10 + 1 * 2) 1 demo_world).2.mem 13 = -114 :=
  ⟨demo_solve_pt_writes, fun addr h h' => by unfold in_row at *; omega, by decide,
   by decide, by decide, by decide, by decide, by decide, by decide⟩

/-- C4, amended. Row-wise correctness of `batch_pt`, provided the solver writes only its
`nsp` output entries, its status and (on status 0) its output are a function of its
scalar arguments and input arrays, the output array `X1 [N,nsp]` shares no address with
any input array (`X0` and also `p`, `T`, `lewis`, `M`, `a`), and `N*nsp` fits an `int`.
Then every row `j` processed successfully (every `j < N` when `batch_pt` returns 0, every
`j` below the first failing index `k` otherwise) holds, after `batch_pt` returns, the
values that the direct call `pt(p[j], T[j], X0 + j*nsp, nsp, nel, lewis, M, a, X1 + j*nsp,
verbose)` made on entry leaves there, with the same `lewis`, `M`, `a` for every row, so no
later solve has overwritten it; and each solve of the batch returns the status of that
direct call. -/
theorem batch_pt_rows_correct (solve_pt : SolvePt α)
    (N p T X0 nsp nel lewis M a X1 verbose : Int) (w : World α) :
    WritesOnlyX1 solve_pt → ReadsOnlyInputsPt solve_pt →
    pt_arrays_apart N p T X0 nsp nel lewis M a X1 → offsets_in_range N nsp →
    ((batch_pt solve_pt N p T X0 nsp nel lewis M a X1 verbose w).1 = 0 →
        ∀ j : Nat, (j : Int) < N → ∀ addr, in_row (X1 + j * nsp) nsp addr →
          (batch_pt solve_pt N p T X0 nsp nel lewis M a X1 verbose w).2.mem addr =
            (pt solve_pt (w.mem (p + j)) (w.mem (T + j)) (X0 + j * nsp) nsp nel lewis M a
              (X1 + j * nsp) verbose w).2.mem addr) ∧
      (∀ k : Nat, (k : Int) < N →
        first_failure (pt_row solve_pt p T X0 nsp nel lewis M a X1 verbose) w k →
        ∀ j : Nat, j < k → ∀ addr, in_row (X1 + j * nsp) nsp addr →
          (batch_pt solve_pt N p T X0 nsp nel lewis M a X1 verbose w).2.mem addr =
            (pt solve_pt (w.mem (p + j)) (w.mem (T + j)) (X0 + j * nsp) nsp nel lewis M a
              (X1 + j * nsp) verbose w).2.mem addr) ∧
      (∀ i : Nat, (i : Int) < N →
        row_status (pt_row solve_pt p T X0 nsp nel lewis M a X1 verbose) i w =
          (pt solve_pt (w.mem (p + i)) (w.mem (T + i)) (X0 + i * nsp) nsp nel lewis M a
            (X1 + i * nsp) verbose w).1) := by
  intro hW hR hsep _
  have hframe : ∀ (i : Int) (w : World α) (addr : Int), ¬ in_row (X1 + i * nsp) nsp addr →
      (pt_row solve_pt p T X0 nsp nel lewis M a X1 verbose i w).2.mem addr = w.mem addr :=
    fun i w addr h => pt_row_frame solve_pt hW p T X0 nsp nel lewis M a X1 verbose i w addr h
  have hwr : ∀ i : Int, 0 ≤ i → i < N → ∀ addr, in_row (X1 + i * nsp) nsp addr →
      in_row X1 (N * nsp) addr := fun i h0 hN addr h => row_in_array X1 nsp N i addr h0 hN h
  have hdisj : ∀ i j : Int, 0 ≤ i → i < N → 0 ≤ j → j < N → i ≠ j →
      ∀ addr, in_row (X1 + j * nsp) nsp addr → ¬ in_row (X1 + i * nsp) nsp addr :=
    fun i j _ _ _ _ hij addr hj => rows_apart X1 nsp i j addr hij hj
  have hdet := fun (i : Int) (h0 : 0 ≤ i) (hN : i < N) (w w' : World α)
      (hag : ∀ addr, ¬ in_row X1 (N * nsp) addr → w.mem addr = w'.mem addr) =>
    pt_row_det solve_pt hR N p T X0 nsp nel lewis M a X1 verbose hsep i h0 hN w w' hag
  have hrow : ∀ j m : Nat, j < m → (m : Int) ≤ N →
      row_status (pt_row solve_pt p T X0 nsp nel lewis M a X1 verbose) j w = 0 →
      ∀ addr, in_row (X1 + j * nsp) nsp addr →
      (run_rows (pt_row solve_pt p T X0 nsp nel lewis M a X1 verbose) m w).mem addr =
        (pt_row solve_pt p T X0 nsp nel lewis M a X1 verbose j w).2.mem addr :=
    fun j m hjm hm hj0 addr haddr =>
      run_rows_row (pt_row solve_pt p T X0 nsp nel lewis M a X1 verbose)
        (fun i addr => in_row (X1 + i * nsp) nsp addr) (fun addr => in_row X1 (N * nsp) addr)
        N hframe hwr hdisj hdet w j m hjm hm hj0 addr haddr
  refine ⟨?_, ?_, ?_⟩
  · intro h0 j hj addr haddr
    rcases first_failure_cases (pt_row solve_pt p T X0 nsp nel lewis M a X1 verbose) w
      N.toNat with hall | ⟨k, hk, hf⟩
    · rw [batch_pt_eq, batch_loop_ok_zero _ _ w N.toNat hall]
      exact hrow j N.toNat (by omega) (by omega) (hall j (by omega)) addr haddr
    · rw [batch_pt_eq, batch_loop_fail_zero _ _ w N.toNat k hk hf] at h0
      exact absurd h0 hf.1
  · intro k hk hf j hj addr haddr
    rw [batch_pt_eq, batch_loop_fail_zero _ _ w N.toNat k (by omega) hf, printf_mem]
    exact hrow j (k + 1) (by omega) (by omega) (hf.2 j hj) addr haddr
  · intro i hi
    exact run_rows_status (pt_row solve_pt p T X0 nsp nel lewis M a X1 verbose)
      (fun i addr => in_row (X1 + i * nsp) nsp addr) (fun addr => in_row X1 (N * nsp) addr)
      N hframe hwr hdet w i hi

/-- C4 amended, on the toy solver that leaves `X1` untouched when it fails, with `X1` at
40 apart from every input: three rows, the second fails; the first output row (addresses
40 and 41) holds `X0[c]*T[0] + p[0]`, that is 200 and 210, as after the direct call. -/
theorem batch_pt_rows_correct_witness :
    (batch_pt early_solve_pt 3 0 10 20 2 1 100 200 300 40 1 demo_world).1 = 3 ∧
      (batch_pt early_solve_pt 3 0 10 20 2 1 100 200 300 40 1 demo_world).2.mem 40 = 200 ∧
      (batch_pt early_solve_pt 3 0 10 20 2 1 100 200 300 40 1 demo_world).2.mem 41 = 210 ∧
      (pt early_solve_pt 0 10 20 2 1 100 200 300 40 1 demo_world).2.mem 40 = 200 :=
  have h := (batch_pt_rows_correct early_solve_pt 3 0 10 20 2 1 100 200 300 40 1 demo_world
    early_solve_pt_writes early_solve_pt_reads demo_pt_arrays_apart (by decide)).2.1 1
    (by decide) (by decide) 0 (by decide)
  ⟨by decide, (h 40 (by decide)).trans (by decide), (h 41 (by decide)).trans (by decide),
   by decide⟩

/-- C6, as stated, fails when the output array `T` overlaps the input array `u`. Toy
solver (it writes only its `nsp` entries of `X1` and `*T`), `N = 3`, `nsp = 2`, `u` at 10,
`X1` at 40 and `T` at 11, so that `T[0]` is `u[1]`. Solve 0 stores its temperature 10 over
`u[1]`, which held -5; line 128 then reads `u[1] = 10`. `batch_rhou` returns 0, so row 1
is processed successfully, and row 1 holds 221, 231 and `T[1]` holds 10, while the direct
call `rhou(rho[1], u[1], X0 + 2, .., X1 + 2, T + 1, ..)` on the entry values returns 4 and
leaves -109, -114 and -5. -/
theorem batch_rhou_rows_overlap_counterexample :
    WritesOnlyX1T demo_solve_rhou ∧
      (batch_rhou demo_solve_rhou 3 0 10 20 2 1 100 200 300 40 11 1 demo_world).1 = 0 ∧
      in_row (40 + 1 * 2) 2 42 ∧
      (batch_rhou demo_solve_rhou 3 0 10 20 2 1 100 200 300 40 11 1 demo_world).2.mem 42 =
        221 ∧
      (batch_rhou demo_solve_rhou 3 0 10 20 2 1 100 200 300 40 11 1 demo_world).2.mem 43 =
        231 ∧
      (batch_rhou demo_solve_rhou 3 0 10 20 2 1 100 200 300 40 11 1 demo_world).2.mem
        (11 + 1) = 10 ∧
      (rhou demo_solve_rhou (demo_world.mem (0 + 1)) (demo_world.mem (10 + 1)) (20 + 1 * 2) 2
        1 100 200 300 (40 + 1 * 2) (11 + 1) 1 demo_world).1 = 4 ∧
      (rhou demo_solve_rhou (demo_world.mem (0 + 1)) (demo_world.mem (10 + 1)) (20 + 1 * 2) 2
        1 100 200 300 (40 + 1 * 2) (11 + 1) 1 demo_world).2.mem 42 = -109 ∧
      (rhou demo_solve_rhou (demo_world.mem (0 + 1)) (demo_world.mem (10 + 1)) (20 + 1 * 2) 2
        1 100 200 300 (40 + 1 * 2) (11 + 1) 1 demo_world).2.mem 43 = -114 ∧
      (rhou demo_solve_rhou (demo_world.mem (0 + 1)) (demo_world.mem (10 + 1)) (20 + 1 * 2) 2
        1 100 200 300 (40 + 1 * 2) (11 + 1) 1 demo_world).2.mem (11 + 1) = -5 :=
  ⟨demo_solve_rhou_writes, by decide, by decide, by decide, by decide, by decide, by decide,
   by decide, by decide, by decide⟩

/-- C6, amended. Row-wise correctness of `batch_rhou`, provided the solver writes only its
`nsp` composition entries and its one temperature entry, its status and (on status 0) its
outputs are a function of its scalar arguments and input arrays, the output arrays
`X1 [N,nsp]` and `T [N]` share no address with any input array (`rho`, `u`, `X0`, `lewis`,
`M`, `a`) nor with each other, and `N*nsp` fits an `int`. Then every row `j` processed
successfully (every `j < N` on a 0 return, every `j` below the first failing index
otherwise) holds, after `batch_rhou` returns, in `X1[j*nsp .. (j+1)*nsp)` and in `T[j]` the
values that the direct call `rhou(rho[j], u[j], X0 + j*nsp, nsp, nel, lewis, M, a,
X1 + j*nsp, T + j, verbose)` made on entry leaves there, so no other solve has written
`T[j]`; each solve of the batch returns the status of that direct call; and the solver
calls `batch_rhou` makes are, in order, one per row `i` with the entry values `rho[i]`,
`u[i]`, the composition pointers at stride `nsp` and the temperature pointer `T + i` at
stride 1. -/
theorem batch_rhou_rows_correct (solve_rhou : SolveRhou α)
    (N rho u X0 nsp nel lewis M a X1 T verbose : Int) (w : World α) :
    WritesOnlyX1T solve_rhou → ReadsOnlyInputsRhou solve_rhou →
    rhou_arrays_apart N rho u X0 nsp nel lewis M a X1 T → T_X1_apart N nsp X1 T →
    offsets_in_range N nsp →
    ((batch_rhou solve_rhou N rho u X0 nsp nel lewis M a X1 T verbose w).1 = 0 →
        ∀ j : Nat, (j : Int) < N → ∀ addr, in_row (X1 + j * nsp) nsp addr ∨ addr = T + j →
          (batch_rhou solve_rhou N rho u X0 nsp nel lewis M a X1 T verbose w).2.mem addr =
            (rhou solve_rhou (w.mem (rho + j)) (w.mem (u + j)) (X0 + j * nsp) nsp nel lewis
              M a (X1 + j * nsp) (T + j) verbose w).2.mem addr) ∧
      (∀ k : Nat, (k : Int) < N →
        first_failure (rhou_row solve_rhou rho u X0 nsp nel lewis M a X1 T verbose) w k →
        ∀ j : Nat, j < k → ∀ addr, in_row (X1 + j * nsp) nsp addr ∨ addr = T + j →
          (batch_rhou solve_rhou N rho u X0 nsp nel lewis M a X1 T verbose w).2.mem addr =
            (rhou solve_rhou (w.mem (rho + j)) (w.mem (u + j)) (X0 + j * nsp) nsp nel lewis
              M a (X1 + j * nsp) (T + j) verbose w).2.mem addr) ∧
      (∀ i : Nat, (i : Int) < N →
        row_status (rhou_row solve_rhou rho u X0 nsp nel lewis M a X1 T verbose) i w =
          (rhou solve_rhou (w.mem (rho + i)) (w.mem (u + i)) (X0 + i * nsp) nsp nel lewis
            M a (X1 + i * nsp) (T + i) verbose w).1) ∧
      ((batch_rhou solve_rhou N rho u X0 nsp nel lewis M a X1 T verbose w).1 = 0 →
        (batch_rhou solve_rhou N rho u X0 nsp nel lewis M a X1 T verbose w).2.calls =
          w.calls ++ (List.range N.toNat).map (fun i : Nat =>
            Call.solve_rhou (w.mem (rho + i)) (w.mem (u + i)) (X0 + i * nsp) nsp nel lewis
              M a (X1 + i * nsp) (T + i) verbose)) ∧
      (∀ k : Nat, (k : Int) < N →
        first_failure (rhou_row solve_rhou rho u X0 nsp nel lewis M a X1 T verbose) w k →
        (batch_rhou solve_rhou N rho u X0 nsp nel lewis M a X1 T verbose w).2.calls =
          w.calls ++ (List.range (k + 1)).map (fun i : Nat =>
            Call.solve_rhou (w.mem (rho + i)) (w.mem (u + i)) (X0 + i * nsp) nsp nel lewis
              M a (X1 + i * nsp) (T + i) verbose)) := by
  intro hW hR hsep hTX _
  have hframe : ∀ (i : Int) (w : World α) (addr : Int),
      ¬ (in_row (X1 + i * nsp) nsp addr ∨ addr = T + i) →
      (rhou_row solve_rhou rho u X0 nsp nel lewis M a X1 T verbose i w).2.mem addr =
        w.mem addr :=
    fun i w addr h =>
      rhou_row_frame solve_rhou hW rho u X0 nsp nel lewis M a X1 T verbose i w addr h
  have hwr : ∀ i : Int, 0 ≤ i → i < N → ∀ addr,
      in_row (X1 + i * nsp) nsp addr ∨ addr = T + i →
      in_row X1 (N * nsp) addr ∨ in_row T N addr :=
    fun i h0 hN addr h => rhou_writes_in_out N nsp X1 T i h0 hN addr h
  have hdisj : ∀ i j : Int, 0 ≤ i → i < N → 0 ≤ j → j < N → i ≠ j →
      ∀ addr, in_row (X1 + j * nsp) nsp addr ∨ addr = T + j →
        ¬ (in_row (X1 + i * nsp) nsp addr ∨ addr = T + i) :=
    fun i j hi0 hiN hj0 hjN hij addr hj =>
      rhou_writes_apart N nsp X1 T hTX i j hi0 hiN hj0 hjN hij addr hj
  have hdet := fun (i : Int) (h0 : 0 ≤ i) (hN : i < N) (w w' : World α)
      (hag : ∀ addr, ¬ (in_row X1 (N * nsp) addr ∨ in_row T N addr) →
        w.mem addr = w'.mem addr) =>
    rhou_row_det solve_rhou hR N rho u X0 nsp nel lewis M a X1 T verbose hsep i h0 hN w w'
      hag
  have hrow : ∀ j m : Nat, j < m → (m : Int) ≤ N →
      row_status (rhou_row solve_rhou rho u X0 nsp nel lewis M a X1 T verbose) j w = 0 →
      ∀ addr, in_row (X1 + j * nsp) nsp addr ∨ addr = T + j →
      (run_rows (rhou_row solve_rhou rho u X0 nsp nel lewis M a X1 T verbose) m w).mem addr =
        (rhou_row solve_rhou rho u X0 nsp nel lewis M a X1 T verbose j w).2.mem addr :=
    fun j m hjm hm hj0 addr haddr =>
      run_rows_row (rhou_row solve_rhou rho u X0 nsp nel lewis M a X1 T verbose)
        (fun i addr => in_row (X1 + i * nsp) nsp addr ∨ addr = T + i)
        (fun addr => in_row X1 (N * nsp) addr ∨ in_row T N addr)
        N hframe hwr hdisj hdet w j m hjm hm hj0 addr haddr
  refine ⟨?_, ?_, ?_, ?_, ?_⟩
  · intro h0 j hj addr haddr
    rcases first_failure_cases
      (rhou_row solve_rhou rho u X0 nsp nel lewis M a X1 T verbose) w
      N.toNat with hall | ⟨k, hk, hf⟩
    · rw [batch_rhou_eq, batch_loop_ok_zero _ _ w N.toNat hall]
      exact hrow j N.toNat (by omega) (by omega) (hall j (by omega)) addr haddr
    · rw [batch_rhou_eq, batch_loop_fail_zero _ _ w N.toNat k hk hf] at h0
      exact absurd h0 hf.1
  · intro k hk hf j hj addr haddr
    rw [batch_rhou_eq, batch_loop_fail_zero _ _ w N.toNat k (by omega) hf, printf_mem]
    exact hrow j (k + 1) (by omega) (by omega) (hf.2 j hj) addr haddr
  · intro i hi
    exact run_rows_status (rhou_row solve_rhou rho u X0 nsp nel lewis M a X1 T verbose)
      (fun i addr => in_row (X1 + i * nsp) nsp addr ∨ addr = T + i)
      (fun addr => in_row X1 (N * nsp) addr ∨ in_row T N addr)
      N hframe hwr hdet w i hi
  · intro h0
    rcases first_failure_cases
      (rhou_row solve_rhou rho u X0 nsp nel lewis M a X1 T verbose) w
      N.toNat with hall | ⟨k, hk, hf⟩
    · rw [batch_rhou_eq, batch_loop_ok_zero _ _ w N.toNat hall]
      exact rhou_run_calls_entry solve_rhou hW N rho u X0 nsp nel lewis M a X1 T verbose hsep
        w N.toNat (fun i hi => by omega)
    · rw [batch_rhou_eq, batch_loop_fail_zero _ _ w N.toNat k hk hf] at h0
      exact absurd h0 hf.1
  · intro k hk hf
    rw [batch_rhou_eq, batch_loop_fail_zero _ _ w N.toNat k (by omega) hf, printf_calls]
    exact rhou_run_calls_entry solve_rhou hW N rho u X0 nsp nel lewis M a X1 T verbose hsep
      w (k + 1) (fun i hi => by omega)

/-- C6 amended, on the toy solver with `X1` at 40 and `T` at 50, apart from every input:
three rows, the second fails; after `batch_rhou` the first output row holds 200 and 210
and `T[0]` (address 50) holds the temperature 10 that the direct `rhou` call stores there,
and the two calls made received `T + 0 = 50` and `T + 1 = 51`. -/
theorem batch_rhou_rows_correct_witness :
    (batch_rhou demo_solve_rhou 3 0 10 20 2 1 100 200 300 40 50 1 demo_world).2.mem 40 =
        200 ∧
      (batch_rhou demo_solve_rhou 3 0 10 20 2 1 100 200 300 40 50 1 demo_world).2.mem 41 =
        210 ∧
      (batch_rhou demo_solve_rhou 3 0 10 20 2 1 100 200 300 40 50 1 demo_world).2.mem 50 =
        10 ∧
      (rhou demo_solve_rhou 0 10 20 2 1 100 200 300 40 50 1 demo_world).2.mem 50 = 10 ∧
      (batch_rhou demo_solve_rhou 3 0 10 20 2 1 100 200 300 40 50 1 demo_world).2.calls =
        [Call.solve_rhou 0 10 20 2 1 100 200 300 40 50 1,
         Call.solve_rhou 1 (-5) 22 2 1 100 200 300 42 51 1] :=
  have hall := batch_rhou_rows_correct demo_solve_rhou 3 0 10 20 2 1 100 200 300 40 50 1
    demo_world demo_solve_rhou_writes demo_solve_rhou_reads demo_rhou_arrays_apart
    demo_T_X1_apart (by decide)
  have h := hall.2.1 1 (by decide) (by decide) 0 (by decide)
  ⟨(h 40 (by decide)).trans (by decide), (h 41 (by decide)).trans (by decide),
   (h 50 (by decide)).trans (by decide), by decide,
   (hall.2.2.2.2 1 (by decide) (by decide)).trans (by decide)⟩

/-- C8. `verbose` never changes the status or the numeric result: whenever this holds for
the core solvers `solve_pt` and `solve_rhou`, it holds for the four entry points. For any
two values `v1`, `v2` of `verbose` and the same other arguments and entry state, `pt`,
`rhou`, `batch_pt` and `batch_rhou` return the same status and leave the same memory
(`X1` and `T`). -/
theorem verbose_never_changes_result (solve_pt : SolvePt α) (solve_rhou : SolveRhou α)
    (hpt : VerboseOnlyTracesPt solve_pt) (hrhou : VerboseOnlyTracesRhou solve_rhou)
    (v1 v2 : Int) (pv Tv rhov uv : α) (N p T rho u T' X0 nsp nel lewis M a X1 : Int)
    (w : World α) :
    ((pt solve_pt pv Tv X0 nsp nel lewis M a X1 v1 w).1 =
          (pt solve_pt pv Tv X0 nsp nel lewis M a X1 v2 w).1 ∧
        (pt solve_pt pv Tv X0 nsp nel lewis M a X1 v1 w).2.mem =
          (pt solve_pt pv Tv X0 nsp nel lewis M a X1 v2 w).2.mem) ∧
      ((rhou solve_rhou rhov uv X0 nsp nel lewis M a X1 T' v1 w).1 =
          (rhou solve_rhou rhov uv X0 nsp nel lewis M a X1 T' v2 w).1 ∧
        (rhou solve_rhou rhov uv X0 nsp nel lewis M a X1 T' v1 w).2.mem =
          (rhou solve_rhou rhov uv X0 nsp nel lewis M a X1 T' v2 w).2.mem) ∧
      ((batch_pt solve_pt N p T X0 nsp nel lewis M a X1 v1 w).1 =
          (batch_pt solve_pt N p T X0 nsp nel lewis M a X1 v2 w).1 ∧
        (batch_pt solve_pt N p T X0 nsp nel lewis M a X1 v1 w).2.mem =
          (batch_pt solve_pt N p T X0 nsp nel lewis M a X1 v2 w).2.mem) ∧
      ((batch_rhou solve_rhou N rho u X0 nsp nel lewis M a X1 T' v1 w).1 =
          (batch_rhou solve_rhou N rho u X0 nsp nel lewis M a X1 T' v2 w).1 ∧
        (batch_rhou solve_rhou N rho u X0 nsp nel lewis M a X1 T' v1 w).2.mem =
          (batch_rhou solve_rhou N rho u X0 nsp nel lewis M a X1 T' v2 w).2.mem) := by
  refine ⟨?_, ?_, ?_, ?_⟩
  · exact hpt pv Tv X0 nsp nel lewis M a X1 v1 v2 w.mem
  · exact hrhou rhov uv X0 nsp nel lewis M a X1 T' v1 v2 w.mem
  · rw [batch_pt_eq, batch_pt_eq]
    exact batch_loop_same_mem _ _ _
      (fun i w w' hw => pt_row_verbose solve_pt hpt p T X0 nsp nel lewis M a X1 v1 v2 i w w'
        hw) N.toNat 0 w w rfl
  · rw [batch_rhou_eq, batch_rhou_eq]
    exact batch_loop_same_mem _ _ _
      (fun i w w' hw => rhou_row_verbose solve_rhou hrhou rho u X0 nsp nel lewis M a X1 T'
        v1 v2 i w w' hw) N.toNat 0 w w rfl

/-- C8, on the toy solvers: tracing off (`verbose = 0`) and on (`verbose = 1`) give the
same status and memory for a batch of three rows. -/
theorem verbose_never_changes_result_witness :
    (batch_pt demo_solve_pt 3 0 10 20 2 1 100 200 300 40 0 demo_world).1 =
        (batch_pt demo_solve_pt 3 0 10 20 2 1 100 200 300 40 1 demo_world).1 ∧
      (batch_pt demo_solve_pt 3 0 10 20 2 1 100 200 300 40 0 demo_world).2.mem =
        (batch_pt demo_solve_pt 3 0 10 20 2 1 100 200 300 40 1 demo_world).2.mem :=
  (verbose_never_changes_result demo_solve_pt demo_solve_rhou demo_solve_pt_verbose
    demo_solve_rhou_verbose 0 1 0 10 0 10 3 0 10 0 10 50 20 2 1 100 200 300 40
    demo_world).2.2.1

end Claims

end Ceq
